import Mathlib

/-!
Shallow embedding of the `bun-sqlite-key-value` store (src/src/index.ts and
src/src/database.ts).  The SQLite engine's `items` table is modelled as a list
of rows with string keys; SQL statements are translated to list operations,
JavaScript control flow is translated branch by branch.  Times are integer
epoch milliseconds passed explicitly (`Date.now()` becomes a `now` argument).
-/

namespace BunKV

/-- The largest magnitude up to which every integer is exactly representable
as an IEEE-754 double (the literal is `2^53`): within this bound, double
arithmetic on integers agrees with exact integer arithmetic. -/
def MAX_SAFE_DOUBLE_INT : Nat := 9007199254740992

/-- The overflow threshold of IEEE-754 doubles under round-to-nearest,
ties-to-even: a real value `v` with `|v| >= 2^1024 - 2^970` (this literal)
rounds to infinity, and any smaller `|v|` rounds to a finite double. -/
def DOUBLE_OVERFLOW : Nat := 179769313486231580793728971405303415079934132710037826936173778980444968292764750946649017977587207096330286416692887910946555547851940402630657488671505820681908902000708383676273854845817711531764475730270069855571366959622842914819860834936475292719074168444365510704342711559699508093042880177904174497792

/-- JavaScript numbers (IEEE-754 doubles), abstracted into the `NaN`
sentinel, exactly-tracked integers (by construction of magnitude at most
`2^53`, where doubles are exact), the two infinities, and `fin` — a finite
non-`NaN` double whose exact value this model does not track (a fractional
value, or an integer beyond the exactly-representable range). -/
inductive JsNum where
  | nan : JsNum
  | int : Int → JsNum
  | fin : JsNum
  | inf : Bool → JsNum
deriving DecidableEq, Repr

/-- Addition of JavaScript numbers: `NaN` is absorbing; opposite infinities
give `NaN` and an infinity absorbs any finite value; two exactly-tracked
integers add exactly while the sum stays in the exact range (both operands
and the sum are then exactly representable, so the double addition is
exact), and fall into the untracked class otherwise.  Sums with an untracked
finite operand are non-`NaN` and stay modelled as untracked (the corner
where a sum of two untracked values of magnitude near `1.8e308` overflows to
infinity is folded into the untracked class; no statement below touches it). -/
def JsNum.add : JsNum → JsNum → JsNum
  | .nan, _ => .nan
  | _, .nan => .nan
  | .inf s, .inf t => if s == t then .inf s else .nan
  | .inf s, _ => .inf s
  | _, .inf s => .inf s
  | .int a, .int b =>
    if (a + b).natAbs ≤ MAX_SAFE_DOUBLE_INT then .int (a + b) else .fin
  | _, _ => .fin

/-- Multiplication by `-1`, as in `decrBy * -1` in `decr` (index.ts:651):
exact on every class (negation of a double is always exact). -/
def JsNum.mulNegOne : JsNum → JsNum
  | .int a => .int (-a)
  | .nan => .nan
  | .fin => .fin
  | .inf s => .inf !s

/-- The universe of v8-serializable values used by the store: `null`,
`undefined`, booleans, numbers, strings, arrays, `Map`s with string keys
(as used by the hash operations) and plain objects. -/
inductive Value where
  | vnull : Value
  | vundef : Value
  | vbool : Bool → Value
  | vnum : JsNum → Value
  | vstr : String → Value
  | varr : List Value → Value
  | vmap : List (String × Value) → Value
  | vobj : List (String × Value) → Value

/-- Serialized payload column (`value BLOB`).  The value codec
(`node:v8` `serialize`/`deserialize`) is an external collaborator; per its
contract it round-trips every supported value losslessly, so buffers are
modelled as the values themselves. -/
abbrev Buffer := Value

/-- The external codec's encoder (`serialize` from `node:v8`). -/
def serialize (v : Value) : Buffer := v

/-- The external codec's decoder (`deserialize` from `node:v8`). -/
def deserialize (b : Buffer) : Value := b

/-- One row of the `items` table: `key TEXT PRIMARY KEY, value BLOB, expires INT`. -/
structure Row where
  key : String
  value : Option Buffer
  expires : Option Int

/-- The `items` table. -/
abbrev Rows := List Row

/-- Store-level configuration retained by the class (`this.ttlMs`). -/
structure Config where
  ttlMs : Option Int
deriving DecidableEq, Repr

/-- JavaScript truthiness-guarded expiry test used by `get`/`has`
(index.ts:378-383): `if (expires) { if (expires < Date.now()) ... }`.
A `expires` of SQL NULL or the number `0` is falsy and skips the check. -/
def expiredAt (expires : Option Int) (now : Int) : Bool :=
  match expires with
  | none => false
  | some e => e != 0 && decide (e < now)

/-- SQL predicate `expires < $now` of `deleteExpiredStatement`
(index.ts:177); a NULL `expires` compares to nothing and is kept. -/
def sqlExpiredLt (expires : Option Int) (now : Int) : Bool :=
  match expires with
  | none => false
  | some e => decide (e < now)

/-- SQL predicate `expires IS NULL OR expires > $now` of
`countValidStatement` (index.ts:183-185). -/
def sqlValidRow (r : Row) (now : Int) : Bool :=
  match r.expires with
  | none => true
  | some e => decide (e > now)

/-- The argument shape of `delete(keyOrKeys?)` (index.ts:249). -/
inductive KeyOrKeys where
  | one : String → KeyOrKeys
  | many : List String → KeyOrKeys
  | undef : KeyOrKeys
deriving DecidableEq, Repr

/-- The method `delete(keyOrKeys?)` (index.ts:249-264): a string key runs
`DELETE FROM items WHERE key = $key`; a NONempty array loops that statement in
a transaction; `undefined` and the empty array (whose `length` is falsy) fall
through to `DELETE FROM items`. -/
def delete (rows : Rows) : KeyOrKeys → Rows
  | .one k => rows.filter (fun r => r.key != k)
  | .many ks => if ks.length != 0 then rows.filter (fun r => !(ks.contains r.key)) else []
  | .undef => []

/-- The method `deleteExpired()` (index.ts:237-239). -/
def deleteExpired (rows : Rows) (now : Int) : Rows :=
  rows.filter (fun r => !(sqlExpiredLt r.expires now))

/-- The method `getCount()` (index.ts:298-300): `SELECT COUNT(*) FROM items`. -/
def getCount (rows : Rows) : Nat := rows.length

/-- The method `getCountValid(deleteExpired?)` (index.ts:325-335): with the
flag it sweeps expired rows and then counts everything; without it it counts
the rows satisfying `expires IS NULL OR expires > $now` and mutates nothing. -/
def getCountValid (rows : Rows) (deleteExpiredFlag : Bool) (now : Int) : Nat × Rows :=
  if deleteExpiredFlag then
    let rows' := deleteExpired rows now
    (rows'.length, rows')
  else
    ((rows.filter (fun r => sqlValidRow r now)).length, rows)

/-- Effective TTL: `ttlMs = ttlMs ?? this.ttlMs` (index.ts:340). -/
def effectiveTtl (cfg : Config) (ttlMs : Option Int) : Option Int :=
  match ttlMs with
  | some t => some t
  | none => cfg.ttlMs

/-- Expiry stamp computed by `set` (index.ts:339-343):
`if (ttlMs !== undefined && ttlMs > 0) expires = Date.now() + ttlMs`. -/
def computeExpires (cfg : Config) (ttlMs : Option Int) (now : Int) : Option Int :=
  match effectiveTtl cfg ttlMs with
  | some t => if t > 0 then some (now + t) else none
  | none => none

/-- The SQL `INSERT OR REPLACE INTO items` (index.ts:179-181): a conflicting
row is removed and the fresh row appended (REPLACE inserts under a new rowid). -/
def setItem (rows : Rows) (k : String) (b : Buffer) (expires : Option Int) : Rows :=
  rows.filter (fun r => r.key != k) ++ [⟨k, some b, expires⟩]

/-- The method `set(key, value, ttlMs?)` (index.ts:338-345). -/
def set (cfg : Config) (rows : Rows) (k : String) (v : Value) (ttlMs : Option Int)
    (now : Int) : Rows :=
  setItem rows k (serialize v) (computeExpires cfg ttlMs now)

/-- A JavaScript function returning the deserialized value returns `undefined`
for the stored value `undefined`; callers cannot distinguish it from absence,
so the model folds it into `none`. -/
def jsReturn : Value → Option Value
  | .vundef => none
  | v => some v

/-- The method `get(key)` (index.ts:374-385): point lookup, truthiness-guarded
expiry check with opportunistic delete, then `value ? deserialize(value) :
undefined`. -/
def get (rows : Rows) (k : String) (now : Int) : Option Value × Rows :=
  match rows.find? (fun r => r.key == k) with
  | none => (none, rows)
  | some r =>
    if expiredAt r.expires now then
      (none, delete rows (.one k))
    else
      (match r.value with
       | none => none
       | some b => jsReturn (deserialize b), rows)

/-- The method `has(key)` (index.ts:513-523). -/
def has (rows : Rows) (k : String) (now : Int) : Bool × Rows :=
  match rows.find? (fun r => r.key == k) with
  | none => (false, rows)
  | some r =>
    if expiredAt r.expires now then
      (false, delete rows (.one k))
    else
      (true, rows)

/-- The characters `Number()` trims around a string numeric literal: the
ECMAScript WhiteSpace set (TAB, VT, FF, SP, NBSP, ZWNBSP and the Unicode
Space_Separator category) together with the LineTerminators (LF, CR, LS,
PS). -/
def isJsWs (c : Char) : Bool :=
  let n := c.toNat
  n == 9 || n == 10 || n == 11 || n == 12 || n == 13 || n == 32 ||
  n == 160 || n == 5760 || (8192 ≤ n && n ≤ 8202) || n == 8232 ||
  n == 8233 || n == 8239 || n == 8287 || n == 12288 || n == 65279

/-- Both-ends whitespace trim on a character list. -/
def trimChars (cs : List Char) : List Char :=
  ((cs.dropWhile isJsWs).reverse.dropWhile isJsWs).reverse

/-- Value of a decimal digit string. -/
def digitsVal (ds : List Char) : Nat :=
  ds.foldl (fun a c => a * 10 + (c.toNat - 48)) 0

/-- Hexadecimal digit test. -/
def isHexDigit (c : Char) : Bool :=
  c.isDigit || ('a' ≤ c && c ≤ 'f') || ('A' ≤ c && c ≤ 'F')

/-- Value of one hexadecimal digit. -/
def hexDigitVal (c : Char) : Nat :=
  if c.isDigit then c.toNat - 48
  else if 'a' ≤ c && c ≤ 'f' then c.toNat - 87
  else c.toNat - 55

/-- Value of a hexadecimal digit string. -/
def hexVal (ds : List Char) : Nat :=
  ds.foldl (fun a c => a * 16 + hexDigitVal c) 0

/-- Octal digit test. -/
def isOctDigit (c : Char) : Bool := '0' ≤ c && c ≤ '7'

/-- Value of an octal digit string. -/
def octVal (ds : List Char) : Nat :=
  ds.foldl (fun a c => a * 8 + (c.toNat - 48)) 0

/-- Binary digit test. -/
def isBinDigit (c : Char) : Bool := c == '0' || c == '1'

/-- Value of a binary digit string. -/
def binVal (ds : List Char) : Nat :=
  ds.foldl (fun a c => a * 2 + (c.toNat - 48)) 0

/-- Classification of a nonnegative integer literal value as a double:
exactly tracked while at most `2^53`, infinity at or beyond the rounding
overflow threshold, untracked finite in between. -/
def classifyNonDec (n : Nat) : JsNum :=
  if DOUBLE_OVERFLOW ≤ n then .inf true
  else if n ≤ MAX_SAFE_DOUBLE_INT then .int (n : Int)
  else .fin

/-- Classification of the exact rational value `(-1)^sign * M * 10^E` of a
decimal literal with `lenM` mantissa digits as a double.  `M = 0` is the
(possibly negative) zero.  For `E >= 400` the value is at least `10^400`,
past the overflow threshold.  For `-E >= lenM + 324` the value is below
`10^-324`, less than half the smallest subnormal, and rounds to zero —
exactly the integer 0.  In between, the integer comparisons against
`DOUBLE_OVERFLOW` decide overflow exactly, and a value is an exactly-tracked
integer when the shift divides the mantissa and the quotient is in the exact
range; everything else is a finite non-`NaN` double left untracked. -/
def classifyDec (sign : Bool) (M : Nat) (lenM : Nat) (E : Int) : JsNum :=
  if M = 0 then .int 0
  else if (400 : Int) ≤ E then .inf (!sign)
  else if 0 ≤ E then
    let n := M * 10 ^ E.toNat
    if DOUBLE_OVERFLOW ≤ n then .inf (!sign)
    else if n ≤ MAX_SAFE_DOUBLE_INT then
      .int (if sign then -(n : Int) else (n : Int))
    else .fin
  else if (lenM : Int) + 324 ≤ -E then .int 0
  else
    let d := 10 ^ (-E).toNat
    if DOUBLE_OVERFLOW * d ≤ M then .inf (!sign)
    else if d ∣ M then
      let q := M / d
      if q ≤ MAX_SAFE_DOUBLE_INT then .int (if sign then -(q : Int) else (q : Int))
      else .fin
    else .fin

/-- The (possibly signed) decimal arm of the `Number()` string grammar:
`Infinity`, or decimal digits with optional fraction and optional exponent
(at least one mantissa digit, nothing trailing).  The exponent accumulator
is capped at `lenM + 800`, beyond which the `classifyDec` branches for
overflow respectively underflow-to-zero have already been decided, so the
cap never changes the result and keeps evaluation linear in the input. -/
def parseDec (sign : Bool) (cs : List Char) : JsNum :=
  if cs = ['I', 'n', 'f', 'i', 'n', 'i', 't', 'y'] then .inf (!sign)
  else
    let ip := cs.takeWhile Char.isDigit
    let r1 := cs.dropWhile Char.isDigit
    let hasDot := match r1 with
      | '.' :: _ => true
      | _ => false
    let afterDot := match r1 with
      | '.' :: rest => rest
      | _ => r1
    let fp := if hasDot then afterDot.takeWhile Char.isDigit else []
    let r2 := if hasDot then afterDot.dropWhile Char.isDigit else r1
    if ip.isEmpty && fp.isEmpty then .nan
    else
      let M := digitsVal (ip ++ fp)
      let lenM := ip.length + fp.length
      match r2 with
      | [] => classifyDec sign M lenM (-(fp.length : Int))
      | e :: rest =>
        if e = 'e' || e = 'E' then
          let esign := match rest with
            | '-' :: _ => true
            | _ => false
          let ds := match rest with
            | '-' :: ds => ds
            | '+' :: ds => ds
            | ds => ds
          if ds.isEmpty || !(ds.all Char.isDigit) then .nan
          else
            let cap := lenM + 800
            let ev := ds.foldl (fun a c => min (a * 10 + (c.toNat - 48)) cap) 0
            classifyDec sign M lenM
              ((if esign then -(ev : Int) else (ev : Int)) - fp.length)
        else .nan

/-- JavaScript `Number()` applied to a string — the complete
`StringNumericLiteral` grammar: surrounding whitespace is trimmed, the empty
(or all-whitespace) string is `0`, a sign admits only the decimal arm, an
unsigned literal may also be hexadecimal (`0x`), octal (`0o`) or binary
(`0b`), and anything outside the grammar is `NaN`.  Values are classified
exactly into the model's integer fragment, zero, infinities, or the
untracked finite class. -/
def strToNum (s : String) : JsNum :=
  match trimChars s.data with
  | [] => .int 0
  | '-' :: cs => parseDec true cs
  | '+' :: cs => parseDec false cs
  | '0' :: x :: cs =>
    if x = 'x' || x = 'X' then
      if !cs.isEmpty && cs.all isHexDigit then classifyNonDec (hexVal cs) else .nan
    else if x = 'o' || x = 'O' then
      if !cs.isEmpty && cs.all isOctDigit then classifyNonDec (octVal cs) else .nan
    else if x = 'b' || x = 'B' then
      if !cs.isEmpty && cs.all isBinDigit then classifyNonDec (binVal cs) else .nan
    else parseDec false ('0' :: x :: cs)
  | cs => parseDec false cs

/-- Comma-join of already stringified array elements. -/
def joinStrs : List String → String
  | [] => ""
  | [s] => s
  | s :: ss => s ++ "," ++ joinStrs ss

mutual
/-- JavaScript `String()` conversion of a value (`Array.prototype.toString`
joins elements with commas; `Map`s and plain objects stringify to the
`[object ...]` tags).  The digits of an untracked finite double are
themselves untracked, so a representative string of the same class stands in
for them: `ToString` of a double round-trips to the same value under
`ToNumber`, and `strToNum` sends the representative back into the untracked
finite class, just as it would the real rendering. -/
def jsToStr : Value → String
  | .vnull => "null"
  | .vundef => "undefined"
  | .vbool b => cond b "true" "false"
  | .vnum .nan => "NaN"
  | .vnum (.int i) => toString i
  | .vnum .fin => "1.5"
  | .vnum (.inf true) => "Infinity"
  | .vnum (.inf false) => "-Infinity"
  | .vstr s => s
  | .vmap _ => "[object Map]"
  | .vobj _ => "[object Object]"
  | .varr xs => joinStrs (jsStrList xs)

/-- Elementwise stringification inside `Array.prototype.join`, where `null`
and `undefined` become the empty string. -/
def jsStrList : List Value → List String
  | [] => []
  | .vnull :: xs => "" :: jsStrList xs
  | .vundef :: xs => "" :: jsStrList xs
  | x :: xs => jsToStr x :: jsStrList xs
end

/-- JavaScript `Number()` coercion of a value: numbers pass through,
`null` is `0`, `undefined` is `NaN`, booleans are `0`/`1`, strings parse
through the numeric grammar, arrays convert through their join string, and
`Map`s/objects (whose string form is never numeric) are `NaN`. -/
def toNumber : Value → JsNum
  | .vnull => .int 0
  | .vundef => .nan
  | .vbool b => .int (cond b 1 0)
  | .vnum n => n
  | .vstr s => strToNum s
  | .varr xs => strToNum (jsToStr (.varr xs))
  | .vmap _ => .nan
  | .vobj _ => .nan

/-- The nullish-coalescing operator `x ?? d` applied to a `get` result:
both a missing value and a stored `null` fall back to the default. -/
def nullish (v : Option Value) (d : Value) : Value :=
  match v with
  | none => d
  | some .vnull => d
  | some v => v

/-- The method `incr(key, incrBy = 1, ttlMs?)` (index.ts:638-646), run inside
an immediate transaction: `Number(get(key) ?? 0) + incrBy`; on `NaN` the new
value is returned without writing (deletions `get` performed still commit);
any non-`NaN` sum is written back with `set` and returned. -/
def incr (cfg : Config) (rows : Rows) (k : String) (incrBy : JsNum)
    (ttlMs : Option Int) (now : Int) : JsNum × Rows :=
  let res := get rows k now
  let newValue := (toNumber (nullish res.1 (.vnum (.int 0)))).add incrBy
  match newValue with
  | .nan => (.nan, res.2)
  | v => (v, set cfg res.2 k (.vnum v) ttlMs now)

/-- The method `decr(key, decrBy = 1, ttlMs?)` (index.ts:650-652):
`incr(key, decrBy * -1, ttlMs)`. -/
def decr (cfg : Config) (rows : Rows) (k : String) (decrBy : JsNum)
    (ttlMs : Option Int) (now : Int) : JsNum × Rows :=
  incr cfg rows k decrBy.mulNegOne ttlMs now

/-- The method `rename(oldKey, newKey)` (index.ts:722-733), in one immediate
transaction: if `has(oldKey)` (which may lazily delete an expired `oldKey`)
then `DELETE FROM items WHERE key = $newKey` followed by
`UPDATE items SET key = $newKey WHERE key = $oldKey`, returning `true`;
otherwise `false`. -/
def rename (rows : Rows) (oldKey newKey : String) (now : Int) : Bool × Rows :=
  let res := has rows oldKey now
  if res.1 then
    let afterDelete := res.2.filter (fun r => r.key != newKey)
    (true, afterDelete.map (fun r => if r.key == oldKey then { r with key := newKey } else r))
  else
    (false, res.2)

/-- Sentinel `MIN_UTF8_CHAR = String.fromCodePoint(1)` (index.ts:98). -/
def MIN_UTF8_CHAR : String := String.mk [Char.ofNat 1]

/-- Sentinel `MAX_UTF8_CHAR = String.fromCodePoint(1_114_111)` (index.ts:99). -/
def MAX_UTF8_CHAR : String := String.mk [Char.ofNat 1114111]

/-- Lexicographic comparison of code-point sequences.  SQLite's default
BINARY collation compares TEXT values by `memcmp` on their UTF-8 encodings,
which orders strings exactly like code-point-wise lexicographic comparison. -/
def lexLt : List Char → List Char → Bool
  | [], [] => false
  | [], _ :: _ => true
  | _ :: _, [] => false
  | a :: as, b :: bs => decide (a.toNat < b.toNat) || (a == b && lexLt as bs)

/-- SQL `<` on TEXT under BINARY collation. -/
def strLt (a b : String) : Bool := lexLt a.data b.data

/-- SQL `>=` on TEXT under BINARY collation. -/
def strGe (a b : String) : Bool := a == b || lexLt b.data a.data

/-- Row filter of `getItemsStartsWithStatement`/`getKeysStartsWithStatement`
(index.ts:189-199): `key = $key OR key >= $gte AND key < $lt` with
`gte = key + MIN_UTF8_CHAR` and `lt = key + MAX_UTF8_CHAR`
(index.ts:405-407, 535-537). -/
def startsWithMatch (p k : String) : Bool :=
  k == p || (strGe k (p ++ MIN_UTF8_CHAR) && strLt k (p ++ MAX_UTF8_CHAR))

/-- A key-value pair as returned to callers (`Item<T>`, index.ts:22-25). -/
structure Item where
  key : String
  value : Option Value

/-- The prefix branch of `getKeys(startsWithOrKeys)` (index.ts:532-575):
range-scan the matching records, partition into valid and expired, delete the
expired ones (single key via `delete(k)`, several via `delete(ks)`), return
the surviving keys or `undefined` when none. -/
def getKeysStartsWith (rows : Rows) (p : String) (now : Int) :
    Option (List String) × Rows :=
  let records := rows.filter (fun r => startsWithMatch p r.key)
  if records.length = 0 then (none, rows)
  else
    let keysToDelete := (records.filter (fun r => expiredAt r.expires now)).map (fun r => r.key)
    let result := (records.filter (fun r => !(expiredAt r.expires now))).map (fun r => r.key)
    let rows' := match keysToDelete with
      | [] => rows
      | [k] => delete rows (.one k)
      | ks => delete rows (.many ks)
    (if result.length = 0 then none else some result, rows')

/-- The prefix branch of `getItems(startsWithOrKeys)` (index.ts:402-447);
identical structure to `getKeysStartsWith` but each survivor also carries
`value ? deserialize(value) : undefined`. -/
def getItemsStartsWith (rows : Rows) (p : String) (now : Int) :
    Option (List Item) × Rows :=
  let records := rows.filter (fun r => startsWithMatch p r.key)
  if records.length = 0 then (none, rows)
  else
    let keysToDelete := (records.filter (fun r => expiredAt r.expires now)).map (fun r => r.key)
    let result := (records.filter (fun r => !(expiredAt r.expires now))).map
      (fun r => Item.mk r.key (match r.value with
        | none => none
        | some b => jsReturn (deserialize b)))
    let rows' := match keysToDelete with
      | [] => rows
      | [k] => delete rows (.one k)
      | ks => delete rows (.many ks)
    (if result.length = 0 then none else some result, rows')

/-- Errors raised by the array and hash operations: the two labelled domain
errors (index.ts:101-102) and the raw `TypeError` that `hDelete` lets
propagate when the stored value has no `delete` method. -/
inductive JsError where
  | invalidCount : JsError
  | noArray : JsError
  | typeError : JsError
deriving DecidableEq, Repr

/-- The method `lPush(key, ...values)` (index.ts:984-1002): start from
`get(key) ?? []`, `unshift` each value in turn (a `TypeError` from a
non-array becomes the NO_ARRAY error and rolls the transaction back), write
the whole array back with `set(key, array)` — no TTL argument — and return
the length after the last `unshift` (`undefined` when no values were given). -/
def lPush (cfg : Config) (rows : Rows) (k : String) (values : List Value)
    (now : Int) : Except JsError (Option Nat) × Rows :=
  let res := get rows k now
  match nullish res.1 (.varr []) with
  | .varr xs =>
    let arr := values.reverse ++ xs
    (.ok (if values.isEmpty then none else some arr.length),
     set cfg res.2 k (.varr arr) none now)
  | v =>
    if values.isEmpty then
      (.ok none, set cfg res.2 k v none now)
    else
      (.error .noArray, rows)

/-- The method `rPush(key, ...values)` (index.ts:1016-1032): like `lPush`
but a single `push(...values)`, which is called (and throws on a non-array)
even when `values` is empty. -/
def rPush (cfg : Config) (rows : Rows) (k : String) (values : List Value)
    (now : Int) : Except JsError (Option Nat) × Rows :=
  let res := get rows k now
  match nullish res.1 (.varr []) with
  | .varr xs =>
    let arr := xs ++ values
    (.ok (some arr.length), set cfg res.2 k (.varr arr) none now)
  | _ => (.error .noArray, rows)

/-- The method `lPop(key, count?)` (index.ts:1049-1073): `undefined` when
`get(key)` yields nothing; with no `count` a `shift()` plus write-back; with
`count > 0` a `splice(0, count)` that returns early — before the write-back —
when it removed nothing; with `count <= 0` the INVALID_COUNT error; a
`TypeError` from a non-array value becomes the NO_ARRAY error.  A thrown
error rolls back the whole transaction. -/
def lPop (cfg : Config) (rows : Rows) (k : String) (count : Option Int)
    (now : Int) : Except JsError (Option Value) × Rows :=
  let res := get rows k now
  match res.1 with
  | none => (.ok none, res.2)
  | some v =>
    match v with
    | .varr xs =>
      match count with
      | none =>
        (.ok (jsReturn (match xs.head? with | none => .vundef | some x => x)),
         set cfg res.2 k (.varr xs.tail) none now)
      | some c =>
        if c > 0 then
          let taken := xs.take c.toNat
          if taken.isEmpty then (.ok none, res.2)
          else (.ok (some (.varr taken)), set cfg res.2 k (.varr (xs.drop c.toNat)) none now)
        else (.error .invalidCount, rows)
    | _ =>
      match count with
      | none => (.error .noArray, rows)
      | some c => if c > 0 then (.error .noArray, rows) else (.error .invalidCount, rows)

/-- The method `rPop(key, count?)` (index.ts:1090-1115): symmetric to `lPop`
with `pop()` respectively `splice(-count, count)` followed by `reverse()`. -/
def rPop (cfg : Config) (rows : Rows) (k : String) (count : Option Int)
    (now : Int) : Except JsError (Option Value) × Rows :=
  let res := get rows k now
  match res.1 with
  | none => (.ok none, res.2)
  | some v =>
    match v with
    | .varr xs =>
      match count with
      | none =>
        (.ok (jsReturn (match xs.getLast? with | none => .vundef | some x => x)),
         set cfg res.2 k (.varr xs.dropLast) none now)
      | some c =>
        if c > 0 then
          let m := min c.toNat xs.length
          let taken := xs.drop (xs.length - m)
          if taken.isEmpty then (.ok none, res.2)
          else (.ok (some (.varr taken.reverse)),
                set cfg res.2 k (.varr (xs.take (xs.length - m))) none now)
        else (.error .invalidCount, rows)
    | _ =>
      match count with
      | none => (.error .noArray, rows)
      | some c => if c > 0 then (.error .noArray, rows) else (.error .invalidCount, rows)

/-- The method `hDelete(key, field)` (index.ts:919-928): `undefined` when the
item is absent; otherwise `map.delete(field)` followed by an unconditional
`set(key, map)` with no TTL argument.  A stored value without a `delete`
method raises an uncaught `TypeError` (there is no try/catch here) and the
transaction rolls back. -/
def hDelete (cfg : Config) (rows : Rows) (k : String) (field : String)
    (now : Int) : Except JsError (Option Bool) × Rows :=
  let res := get rows k now
  match res.1 with
  | none => (.ok none, res.2)
  | some v =>
    match v with
    | .vmap entries =>
      let existed := entries.any (fun e => e.1 == field)
      (.ok (some existed),
       set cfg res.2 k (.vmap (entries.filter (fun e => e.1 != field))) none now)
    | _ => (.error .typeError, rows)

/-- One row of the `tags` table (database.ts:36-42): composite key
`(tag, item_key)` with `item_key REFERENCES items ON DELETE CASCADE`. -/
structure TagRow where
  tag : String
  itemKey : String
deriving DecidableEq, Repr

/-- The two relations created by `getDatabase` (database.ts:24-45). -/
structure TagDB where
  items : Rows
  tags : List TagRow

/-- Deletion of item rows by a key list, together with the engine's
`ON DELETE CASCADE` action (database.ts:39, enabled by
`PRAGMA foreign_keys = ON`, database.ts:21): every tag row whose `item_key`
matches a row actually deleted from `items` vanishes with it. -/
def cascadeDeleteItems (db : TagDB) (ks : List String) : TagDB :=
  let deletedKeys := (db.items.filter (fun r => ks.contains r.key)).map (fun r => r.key)
  ⟨db.items.filter (fun r => !(ks.contains r.key)),
   db.tags.filter (fun tr => !(deletedKeys.contains tr.itemKey))⟩

/-- The `delete` statement (database.ts:57-60) under cascade. -/
def tagDbDeleteItem (db : TagDB) (k : String) : TagDB :=
  cascadeDeleteItems db [k]

/-- The `clear` statement (database.ts:53-55) under cascade. -/
def tagDbClear (db : TagDB) : TagDB :=
  cascadeDeleteItems db (db.items.map (fun r => r.key))

/-- The `setItem` statement (database.ts:67-73, `INSERT OR REPLACE`): with
foreign keys on, the implicit delete of a conflicting row fires the cascade
before the new row is inserted. -/
def tagDbSetItem (db : TagDB) (k : String) (b : Buffer) (e : Option Int) : TagDB :=
  let db' := cascadeDeleteItems db [k]
  ⟨db'.items ++ [⟨k, some b, e⟩], db'.tags⟩

/-- Error surfaced when a tag references a missing item (spec §4.7). -/
inductive TagError where
  | itemNotExists : TagError
deriving DecidableEq, Repr

/-- Modelled from the spec: the class-level method `addTag(key, tag)` is not
among the sources (only its statement, database.ts:177-183, and the schema
are).  Per spec §4.7 it inserts `(tag, item_key)` if absent (`INSERT OR
IGNORE`), returns whether a new row was inserted, and surfaces the
foreign-key violation as an "item does not exist" error when `key` has no
Item — in which case nothing is mutated. -/
def addTag (db : TagDB) (t k : String) : Except TagError (Bool × TagDB) :=
  if db.items.any (fun r => r.key == k) then
    if db.tags.any (fun tr => tr.tag == t && tr.itemKey == k) then
      .ok (false, db)
    else
      .ok (true, ⟨db.items, db.tags ++ [⟨t, k⟩]⟩)
  else
    .error .itemNotExists

/-- The `deleteTag` statement (database.ts:185-188). -/
def deleteTag (db : TagDB) (t k : String) : TagDB :=
  ⟨db.items, db.tags.filter (fun tr => !(tr.tag == t && tr.itemKey == k))⟩

/-- The `deleteAllTags` statement (database.ts:190-193). -/
def deleteAllTags (db : TagDB) (k : String) : TagDB :=
  ⟨db.items, db.tags.filter (fun tr => tr.itemKey != k)⟩

/-- The `getTaggedKeys` statement (database.ts:195-199). -/
def getTaggedKeys (db : TagDB) (t : String) : List String :=
  (db.tags.filter (fun tr => tr.tag == t)).map (fun tr => tr.itemKey)

/-- The `deleteTaggedItems` statement (database.ts:201-208):
`DELETE FROM items WHERE key IN (SELECT item_key FROM tags WHERE tag = $tag)`
— the cascade then removes every tag row of the deleted items. -/
def deleteTaggedItems (db : TagDB) (t : String) : TagDB :=
  cascadeDeleteItems db (getTaggedKeys db t)

/-- The class-level `rename` run against this schema: delete any `newKey` row
(cascading), then `UPDATE items SET key = $newKey WHERE key = $oldKey`, whose
`ON UPDATE CASCADE` action relabels referencing tag rows. -/
def tagDbRename (db : TagDB) (oldKey newKey : String) : TagDB :=
  let db' := cascadeDeleteItems db [newKey]
  ⟨db'.items.map (fun r => if r.key == oldKey then { r with key := newKey } else r),
   db'.tags.map (fun tr => if tr.itemKey == oldKey then { tr with itemKey := newKey } else tr)⟩

/-- Database states reachable from the freshly created (empty) schema through
the items- and tag-mutating operations. -/
inductive Reachable : TagDB → Prop where
  | init : Reachable ⟨[], []⟩
  | setItem (db : TagDB) (k : String) (b : Buffer) (e : Option Int) :
      Reachable db → Reachable (tagDbSetItem db k b e)
  | deleteItem (db : TagDB) (k : String) :
      Reachable db → Reachable (tagDbDeleteItem db k)
  | clear (db : TagDB) : Reachable db → Reachable (tagDbClear db)
  | addTag (db : TagDB) (t k : String) (b : Bool) (db' : TagDB) :
      Reachable db → addTag db t k = .ok (b, db') → Reachable db'
  | deleteTag (db : TagDB) (t k : String) :
      Reachable db → Reachable (deleteTag db t k)
  | deleteAllTags (db : TagDB) (k : String) :
      Reachable db → Reachable (deleteAllTags db k)
  | deleteTaggedItems (db : TagDB) (t : String) :
      Reachable db → Reachable (deleteTaggedItems db t)
  | rename (db : TagDB) (oldKey newKey : String) :
      Reachable db → Reachable (tagDbRename db oldKey newKey)

/-- Referential integrity of the tag index: every tag row refers to an
existing item row. -/
def TagDB.WF (db : TagDB) : Prop :=
  ∀ tr ∈ db.tags, ∃ r ∈ db.items, r.key = tr.itemKey

theorem find?_setItem_self (rows : Rows) (k : String) (b : Buffer) (e : Option Int) :
    (setItem rows k b e).find? (fun r => r.key == k) = some ⟨k, some b, e⟩ := by
  unfold setItem
  rw [List.find?_append]
  have h : (rows.filter (fun r => r.key != k)).find? (fun r => r.key == k) = none := by
    rw [List.find?_eq_none]
    intro x hx
    have hq := (List.mem_filter.mp hx).2
    simp only [bne_iff_ne, ne_eq, decide_not] at hq
    simp only [beq_iff_eq]
    exact fun h => by simp [h] at hq
  rw [h]
  simp [List.find?]

theorem expiredAt_computeExpires_self (cfg : Config) (ttl : Option Int) (now : Int)
    (h : 0 < now) : expiredAt (computeExpires cfg ttl now) now = false := by
  unfold computeExpires expiredAt
  cases effectiveTtl cfg ttl with
  | none => rfl
  | some t =>
    by_cases ht : t > 0
    · simp only [if_pos ht]
      have h1 : now + t ≠ 0 := by omega
      have h2 : ¬ (now + t < now) := by omega
      simp [h1, h2]
    · simp [if_neg ht]

theorem find?_filter_of_imp {α : Type} (l : List α) (p q : α → Bool)
    (h : ∀ x, p x = true → q x = true) : (l.filter q).find? p = l.find? p := by
  induction l with
  | nil => rfl
  | cons a t ih =>
    by_cases hp : p a
    · rw [List.filter_cons, if_pos (h a hp), List.find?_cons_of_pos _ hp,
        List.find?_cons_of_pos _ hp]
    · rw [List.find?_cons_of_neg _ hp, ← ih]
      by_cases hq : q a
      · rw [List.filter_cons, if_pos hq, List.find?_cons_of_neg _ hp]
      · rw [List.filter_cons, if_neg hq]

theorem eq_of_mem_nodup_keys {rows : Rows} (hnd : (rows.map Row.key).Nodup)
    {x y : Row} (hx : x ∈ rows) (hy : y ∈ rows) (h : x.key = y.key) : x = y :=
  List.inj_on_of_nodup_map hnd hx hy h

theorem length_filter_ne_of_mem {rows : Rows} (hnd : (rows.map Row.key).Nodup)
    {r : Row} (hr : r ∈ rows) :
    rows.length = (rows.filter (fun x => x.key != r.key)).length + 1 := by
  induction rows with
  | nil => cases hr
  | cons a t ih =>
    simp only [List.map_cons, List.nodup_cons] at hnd
    rcases List.mem_cons.mp hr with rfl | hrt
    · have ht : t.filter (fun x => x.key != r.key) = t := by
        apply List.filter_eq_self.mpr
        intro x hx
        have hne : x.key ≠ r.key :=
          fun hkey => hnd.1 (hkey ▸ List.mem_map_of_mem Row.key hx)
        simpa [bne_iff_ne] using hne
      simp [List.filter_cons, ht]
    · have hak : a.key ≠ r.key := by
        intro hkey
        exact hnd.1 (hkey ▸ List.mem_map_of_mem Row.key hrt)
      have ih' := ih hnd.2 hrt
      simp only [List.filter_cons, List.length_cons]
      rw [if_pos (by simpa [bne_iff_ne] using hak)]
      simp only [List.length_cons]
      omega

theorem filter_filter_of_imp {α : Type} (l : List α) (p q : α → Bool)
    (h : ∀ x ∈ l, q x = false → p x = false) :
    l.filter p = (l.filter q).filter p := by
  induction l with
  | nil => rfl
  | cons a t ih =>
    have ih' := ih (fun x hx => h x (List.mem_cons_of_mem a hx))
    by_cases hq : q a
    · rw [List.filter_cons, List.filter_cons, if_pos hq, List.filter_cons, ih']
    · have hp : p a = false := h a (List.mem_cons_self a t) (by simpa using hq)
      rw [List.filter_cons, List.filter_cons, if_neg (by simp [hp]),
        if_neg (by simp at hq; simp [hq]), ih']

/-- C3: for every key `k` and every value `V` of a shape supported by the
codec (the supported shapes — primitives, nested objects, map-shaped values,
array-shaped values and `null` — exclude `undefined`), performing
`set(k, V)` with no TTL or an unexpired TTL and then `get(k)` returns a value
equal to `V`. -/
theorem set_get_roundtrip (cfg : Config) (rows : Rows) (k : String) (v : Value)
    (ttl : Option Int) (now readNow : Int) (hv : v ≠ .vundef)
    (hexp : expiredAt (computeExpires cfg ttl now) readNow = false) :
    (get (set cfg rows k v ttl now) k readNow).1 = some v := by
  unfold get set
  rw [find?_setItem_self]
  simp only [hexp]
  unfold deserialize serialize jsReturn
  cases v with
  | vundef => exact absurd rfl hv
  | vnull => rfl
  | vbool b => rfl
  | vnum n => rfl
  | vstr s => rfl
  | varr xs => rfl
  | vmap xs => rfl
  | vobj xs => rfl

/-- Closed instance of `set_get_roundtrip` with its hypotheses discharged at
a concrete input. -/
theorem set_get_roundtrip_witness :
    (get (set ⟨some 100⟩ [] "k" (.varr [.vnull, .vnum (.int 3)]) none 5) "k" 50).1 =
      some (.varr [.vnull, .vnum (.int 3)]) :=
  set_get_roundtrip ⟨some 100⟩ [] "k" (.varr [.vnull, .vnum (.int 3)]) none 5 50
    (by simp) (by decide)

/-- C6: `set(k, v, ttl)` stamps `expires = now + ttl` for `ttl > 0`, stores
no expiration for `ttl = 0` even when a default TTL is configured, falls back
to the store default for `ttl = undefined`, and overwrites any existing item
at `k` unconditionally while leaving other keys' rows in place. -/
theorem set_ttl_semantics (cfg : Config) (rows : Rows) (k : String) (v : Value)
    (ttl : Option Int) (now : Int) :
    ((set cfg rows k v ttl now).find? (fun r => r.key == k) =
        some ⟨k, some v, computeExpires cfg ttl now⟩) ∧
    (∀ t, ttl = some t → 0 < t → computeExpires cfg ttl now = some (now + t)) ∧
    (ttl = some 0 → computeExpires cfg ttl now = none) ∧
    (ttl = none → computeExpires cfg ttl now = computeExpires cfg cfg.ttlMs now) ∧
    (∀ r ∈ rows, r.key ≠ k → r ∈ set cfg rows k v ttl now) := by
  refine ⟨find?_setItem_self rows k v _, ?_, ?_, ?_, ?_⟩
  · intro t ht hpos
    subst ht
    simp [computeExpires, effectiveTtl, hpos]
  · intro ht
    subst ht
    simp [computeExpires, effectiveTtl]
  · intro ht
    subst ht
    simp only [computeExpires, effectiveTtl]
    cases cfg.ttlMs <;> rfl
  · intro r hr hne
    unfold set setItem
    refine List.mem_append_left _ (List.mem_filter.mpr ⟨hr, ?_⟩)
    simpa [bne_iff_ne] using hne

/-- Closed instance of `set_ttl_semantics` with its hypotheses discharged at
a concrete input. -/
theorem set_ttl_semantics_witness :
    ((set ⟨some 9⟩ [⟨"other", some .vnull, none⟩] "k" (.vstr "v") (some 7) 100).find?
        (fun r => r.key == "k") = some ⟨"k", some (.vstr "v"), computeExpires ⟨some 9⟩ (some 7) 100⟩) ∧
    computeExpires ⟨some 9⟩ (some 7) 100 = some 107 ∧
    (⟨"other", some .vnull, none⟩ : Row) ∈
      set ⟨some 9⟩ [⟨"other", some .vnull, none⟩] "k" (.vstr "v") (some 7) 100 := by
  obtain ⟨h1, h2, _, _, h5⟩ :=
    set_ttl_semantics ⟨some 9⟩ [⟨"other", some .vnull, none⟩] "k" (.vstr "v") (some 7) 100
  exact ⟨h1, h2 7 rfl (by decide), h5 _ (by simp) (by decide)⟩

/-- C5 counterexample: `delete` applied to the EMPTY key array clears the
whole store — the row with key `"a"`, although its key is not listed in the
(empty) array, is removed — refuting the claim that `delete(ks)` removes
exactly the listed keys for every array `ks` including the empty one. -/
theorem delete_empty_array_counterexample :
    BunKV.delete [⟨"a", some (.vnum (.int 1)), none⟩] (.many []) = [] ∧
    (⟨"a", some (.vnum (.int 1)), none⟩ : Row) ∈
      ([⟨"a", some (.vnum (.int 1)), none⟩] : Rows) ∧
    ¬ ("a" ∈ ([] : List String)) :=
  ⟨rfl, List.mem_singleton.mpr rfl, List.not_mem_nil "a"⟩

/-- C5 amended: `delete(undefined)` clears the entire store; `delete(k)`
removes exactly the row keyed `k`; `delete(ks)` for a NONempty array removes
exactly the rows whose keys are listed; and `delete([])` falls through the
falsy `length` check and also clears the entire store. -/
theorem delete_spec_amended (rows : Rows) (arg : KeyOrKeys) (r : Row) :
    r ∈ BunKV.delete rows arg ↔
      r ∈ rows ∧
        (match arg with
         | .undef => False
         | .one k => r.key ≠ k
         | .many ks => ks ≠ [] ∧ ¬ (r.key ∈ ks)) := by
  cases arg with
  | undef => simp [BunKV.delete]
  | one k => simp [BunKV.delete, List.mem_filter, bne_iff_ne]
  | many ks =>
    cases ks with
    | nil => simp [BunKV.delete]
    | cons a t =>
      simp [BunKV.delete, List.mem_filter, List.elem_iff]

/-- C2: for a key `k` whose stored record carries an expiry strictly in the
past, `get(k)` returns absent and deletes the row; `getCount()` still counts
the physically present row; `getCountValid()` without the sweep flag excludes
it immediately while mutating nothing; and `getCountValid(true)` first
deletes expired rows and then counts, so the returned number equals the row
count of the store it leaves behind — a store no longer containing `k`. -/
theorem lazy_expiration_spec (rows : Rows) (k : String) (r : Row) (e now : Int)
    (hnd : (rows.map Row.key).Nodup)
    (hfind : rows.find? (fun x => x.key == k) = some r)
    (hexp : r.expires = some e) (h0 : e ≠ 0) (hlt : e < now) :
    get rows k now = (none, BunKV.delete rows (.one k)) ∧
    getCount rows = getCount (BunKV.delete rows (.one k)) + 1 ∧
    (getCountValid rows false now).1 =
      (getCountValid (BunKV.delete rows (.one k)) false now).1 ∧
    (getCountValid rows false now).2 = rows ∧
    (getCountValid rows true now).1 = getCount ((getCountValid rows true now).2) ∧
    (∀ x ∈ (getCountValid rows true now).2, x.key ≠ k) := by
  have hmem : r ∈ rows := List.mem_of_find?_eq_some hfind
  have hkey : r.key = k := by
    have := List.find?_some hfind
    simpa [beq_iff_eq] using this
  have hexpired : expiredAt r.expires now = true := by
    simp [expiredAt, hexp, h0, hlt]
  have huniq : ∀ x ∈ rows, x.key = k → x = r :=
    fun x hx hxk => eq_of_mem_nodup_keys hnd hx hmem (hxk.trans hkey.symm)
  refine ⟨?_, ?_, ?_, rfl, rfl, ?_⟩
  · unfold get
    rw [hfind]
    simp only [hexpired, if_true]
  · have := length_filter_ne_of_mem hnd hmem
    simp only [getCount, BunKV.delete]
    rw [hkey] at this
    exact this
  · simp only [getCountValid, if_neg (Bool.false_ne_true), BunKV.delete]
    have := filter_filter_of_imp rows (fun x => sqlValidRow x now)
      (fun x => x.key != k) ?_
    · rw [← this]
    · intro x hx hq
      have hxk : x.key = k := by simpa [bne_iff_ne] using hq
      have hx_eq : x = r := huniq x hx hxk
      subst hx_eq
      simp only [sqlValidRow, hexp, decide_eq_false_iff_not]
      omega
  · intro x hx
    simp only [getCountValid, if_pos rfl, deleteExpired] at hx
    have hmemx := (List.mem_filter.mp hx).1
    have hkeep := (List.mem_filter.mp hx).2
    intro hxk
    have hx_eq : x = r := huniq x hmemx hxk
    subst hx_eq
    simp [sqlExpiredLt, hexp, hlt] at hkeep

/-- Closed instance of `lazy_expiration_spec` with its hypotheses discharged
at a concrete two-row store whose key `"k"` expired at time 5, read at 10. -/
theorem lazy_expiration_spec_witness :
    get [⟨"a", some .vnull, none⟩, ⟨"k", some (.vstr "v"), some 5⟩] "k" 10 =
      (none, BunKV.delete [⟨"a", some .vnull, none⟩, ⟨"k", some (.vstr "v"), some 5⟩]
        (.one "k")) ∧
    getCount [⟨"a", some .vnull, none⟩, ⟨"k", some (.vstr "v"), some 5⟩] =
      getCount (BunKV.delete [⟨"a", some .vnull, none⟩, ⟨"k", some (.vstr "v"), some 5⟩]
        (.one "k")) + 1 ∧
    (getCountValid [⟨"a", some .vnull, none⟩, ⟨"k", some (.vstr "v"), some 5⟩] false 10).1 =
      (getCountValid (BunKV.delete [⟨"a", some .vnull, none⟩,
        ⟨"k", some (.vstr "v"), some 5⟩] (.one "k")) false 10).1 :=
  ⟨(lazy_expiration_spec [⟨"a", some .vnull, none⟩, ⟨"k", some (.vstr "v"), some 5⟩]
      "k" ⟨"k", some (.vstr "v"), some 5⟩ 5 10
      (by decide) rfl rfl (by decide) (by decide)).1,
   (lazy_expiration_spec [⟨"a", some .vnull, none⟩, ⟨"k", some (.vstr "v"), some 5⟩]
      "k" ⟨"k", some (.vstr "v"), some 5⟩ 5 10
      (by decide) rfl rfl (by decide) (by decide)).2.1,
   (lazy_expiration_spec [⟨"a", some .vnull, none⟩, ⟨"k", some (.vstr "v"), some 5⟩]
      "k" ⟨"k", some (.vstr "v"), some 5⟩ 5 10
      (by decide) rfl rfl (by decide) (by decide)).2.2.1⟩

theorem get_set_self (cfg : Config) (rows : Rows) (k : String) (v : Value)
    (ttl : Option Int) (now : Int) (hnow : 0 < now) (hv : v ≠ .vundef) :
    get (set cfg rows k v ttl now) k now = (some v, set cfg rows k v ttl now) := by
  unfold get
  rw [show (set cfg rows k v ttl now).find? (fun r => r.key == k) =
      some ⟨k, some (serialize v), computeExpires cfg ttl now⟩ from
    find?_setItem_self rows k (serialize v) _]
  simp only [expiredAt_computeExpires_self cfg ttl now hnow, Bool.false_eq_true,
    if_false]
  unfold serialize deserialize jsReturn
  cases v <;> first | rfl | exact absurd rfl hv

theorem incr_absent_step (cfg : Config) (rows : Rows) (k : String) (now : Int)
    (b : Int) (hb : b.natAbs ≤ MAX_SAFE_DOUBLE_INT)
    (hfind : rows.find? (fun r => r.key == k) = none) :
    incr cfg rows k (.int b) none now =
      (.int b, set cfg rows k (.vnum (.int b)) none now) := by
  unfold incr get
  rw [hfind]
  simp [nullish, toNumber, JsNum.add, hb]

theorem incr_num_step (cfg : Config) (rows : Rows) (k : String) (now m b : Int)
    (ttl : Option Int) (hb : (m + b).natAbs ≤ MAX_SAFE_DOUBLE_INT) (hnow : 0 < now) :
    incr cfg (set cfg rows k (.vnum (.int m)) none now) k (.int b) ttl now =
      (.int (m + b),
       set cfg (set cfg rows k (.vnum (.int m)) none now) k (.vnum (.int (m + b))) ttl now) := by
  unfold incr
  rw [get_set_self cfg rows k (.vnum (.int m)) none now hnow (by intro h; cases h)]
  simp [nullish, toNumber, JsNum.add, hb]

/-- C4: starting from an absent key, `incr` yields 1 then 2 and `decr` undoes
it back through 1 to 0; a stored string coercing to an exactly-representable
integer is coerced before adding and the sum written back; a stored string
coercing to a finite non-integer-fragment number (such as a fractional,
exponent or hexadecimal literal) is likewise coerced and written back,
returning a number rather than the `NaN` sentinel; and a stored value that
coerces to `NaN` makes `incr` return the `NaN` sentinel and leave the store
untouched.  (The spec's value universe has no `undefined` — a stored
`undefined` is indistinguishable from absence through `get` — hence the
`v ≠ vundef` hypotheses.) -/
theorem incr_decr_spec :
    (∀ (cfg : Config) (rows : Rows) (k : String) (now : Int),
      rows.find? (fun r => r.key == k) = none → 0 < now →
      ((incr cfg rows k (.int 1) none now).1 = .int 1 ∧
       (incr cfg (incr cfg rows k (.int 1) none now).2 k (.int 1) none now).1 = .int 2 ∧
       (decr cfg (incr cfg (incr cfg rows k (.int 1) none now).2 k (.int 1) none now).2
          k (.int 1) none now).1 = .int 1 ∧
       (decr cfg (decr cfg (incr cfg (incr cfg rows k (.int 1) none now).2 k (.int 1)
          none now).2 k (.int 1) none now).2 k (.int 1) none now).1 = .int 0)) ∧
    (∀ (cfg : Config) (rows : Rows) (k : String) (now : Int) (r : Row) (str : String)
      (m b : Int) (ttl : Option Int),
      rows.find? (fun r => r.key == k) = some r →
      r.value = some (.vstr str) →
      expiredAt r.expires now = false →
      strToNum str = .int m →
      (m + b).natAbs ≤ MAX_SAFE_DOUBLE_INT →
      incr cfg rows k (.int b) ttl now =
        (.int (m + b), set cfg rows k (.vnum (.int (m + b))) ttl now)) ∧
    (∀ (cfg : Config) (rows : Rows) (k : String) (now : Int) (r : Row) (v : Value)
      (jb : JsNum) (ttl : Option Int),
      rows.find? (fun r => r.key == k) = some r →
      r.value = some v →
      expiredAt r.expires now = false →
      toNumber v = .nan →
      v ≠ .vundef →
      incr cfg rows k jb ttl now = (.nan, rows)) ∧
    (∀ (cfg : Config) (rows : Rows) (k : String) (now : Int) (r : Row) (v : Value)
      (b : Int) (ttl : Option Int),
      rows.find? (fun r => r.key == k) = some r →
      r.value = some v →
      expiredAt r.expires now = false →
      toNumber v = .fin →
      v ≠ .vundef →
      incr cfg rows k (.int b) ttl now =
        (.fin, set cfg rows k (.vnum .fin) ttl now)) := by
  refine ⟨?_, ?_, ?_, ?_⟩
  · intro cfg rows k now hfind hnow
    rw [incr_absent_step cfg rows k now 1 (by decide) hfind]
    rw [show ((JsNum.int 1, set cfg rows k (.vnum (.int 1)) none now)).2 =
        set cfg rows k (.vnum (.int 1)) none now from rfl]
    rw [incr_num_step cfg rows k now 1 1 none (by decide) hnow]
    refine ⟨rfl, rfl, ?_, ?_⟩
    · unfold decr
      rw [show JsNum.mulNegOne (.int 1) = .int (-1) from rfl]
      rw [show ((JsNum.int (1 + 1),
          set cfg (set cfg rows k (.vnum (.int 1)) none now) k (.vnum (.int (1 + 1)))
            none now)).2 =
        set cfg (set cfg rows k (.vnum (.int 1)) none now) k (.vnum (.int (1 + 1)))
          none now from rfl]
      rw [show (1 : Int) + 1 = 2 from rfl]
      rw [incr_num_step cfg (set cfg rows k (.vnum (.int 1)) none now) k now 2 (-1)
        none (by decide) hnow]
      norm_num
    · unfold decr
      rw [show JsNum.mulNegOne (.int 1) = .int (-1) from rfl]
      rw [show (1 : Int) + 1 = 2 from rfl]
      rw [show ((JsNum.int 2,
          set cfg (set cfg rows k (.vnum (.int 1)) none now) k (.vnum (.int 2))
            none now)).2 =
        set cfg (set cfg rows k (.vnum (.int 1)) none now) k (.vnum (.int 2))
          none now from rfl]
      rw [incr_num_step cfg (set cfg rows k (.vnum (.int 1)) none now) k now 2 (-1)
        none (by decide) hnow]
      rw [show ((JsNum.int (2 + -1),
          set cfg (set cfg (set cfg rows k (.vnum (.int 1)) none now) k (.vnum (.int 2))
            none now) k (.vnum (.int (2 + -1))) none now)).2 =
        set cfg (set cfg (set cfg rows k (.vnum (.int 1)) none now) k (.vnum (.int 2))
          none now) k (.vnum (.int (2 + -1))) none now from rfl]
      rw [show (2 : Int) + -1 = 1 from rfl]
      rw [incr_num_step cfg _ k now 1 (-1) none (by decide) hnow]
      rw [show (1 : Int) + -1 = 0 from rfl]
  · intro cfg rows k now r str m b ttl hfind hval hvalid hm hb
    unfold incr get
    rw [hfind]
    simp only [hvalid, Bool.false_eq_true, if_false, hval]
    simp [nullish, jsReturn, deserialize, toNumber, hm, JsNum.add, hb]
  · intro cfg rows k now r v jb ttl hfind hval hvalid hnan hvu
    have hvn : v ≠ .vnull := by
      intro h
      subst h
      simp [toNumber] at hnan
    unfold incr get
    rw [hfind]
    simp only [hvalid, Bool.false_eq_true, if_false, hval]
    have hjs : jsReturn (deserialize v) = some v := by
      unfold deserialize jsReturn
      cases v <;> first | rfl | exact absurd rfl hvu
    rw [hjs]
    have hnv : nullish (some v) (.vnum (.int 0)) = v := by
      unfold nullish
      cases v <;> first | rfl | exact absurd rfl hvn
    rw [hnv, hnan]
    cases jb <;> rfl
  · intro cfg rows k now r v b ttl hfind hval hvalid hfin hvu
    have hvn : v ≠ .vnull := by
      intro h
      subst h
      simp [toNumber] at hfin
    unfold incr get
    rw [hfind]
    simp only [hvalid, Bool.false_eq_true, if_false, hval]
    have hjs : jsReturn (deserialize v) = some v := by
      unfold deserialize jsReturn
      cases v <;> first | rfl | exact absurd rfl hvu
    rw [hjs]
    have hnv : nullish (some v) (.vnum (.int 0)) = v := by
      unfold nullish
      cases v <;> first | rfl | exact absurd rfl hvn
    rw [hnv, hfin]
    rfl

/-- Closed instance of `incr_decr_spec` exercising all four parts with the
hypotheses discharged at concrete inputs: an absent key, the integer string
`"41"`, the non-numeric string `"abc"`, and the fractional string `"1.5"`. -/
theorem incr_decr_spec_witness :
    (incr ⟨none⟩ [] "n" (.int 1) none 5).1 = .int 1 ∧
    incr ⟨none⟩ [⟨"s", some (.vstr "41"), none⟩] "s" (.int 1) none 5 =
      (.int 42, set ⟨none⟩ [⟨"s", some (.vstr "41"), none⟩] "s" (.vnum (.int 42)) none 5) ∧
    incr ⟨none⟩ [⟨"x", some (.vstr "abc"), none⟩] "x" (.int 1) none 5 =
      (.nan, [⟨"x", some (.vstr "abc"), none⟩]) ∧
    incr ⟨none⟩ [⟨"f", some (.vstr "1.5"), none⟩] "f" (.int 1) none 5 =
      (.fin, set ⟨none⟩ [⟨"f", some (.vstr "1.5"), none⟩] "f" (.vnum .fin) none 5) := by
  refine ⟨(incr_decr_spec.1 ⟨none⟩ [] "n" 5 rfl (by decide)).1, ?_, ?_, ?_⟩
  · have h := incr_decr_spec.2.1 ⟨none⟩ [⟨"s", some (.vstr "41"), none⟩] "s" 5
      ⟨"s", some (.vstr "41"), none⟩ "41" 41 1 none rfl rfl rfl (by decide) (by decide)
    simpa using h
  · exact incr_decr_spec.2.2.1 ⟨none⟩ [⟨"x", some (.vstr "abc"), none⟩] "x" 5
      ⟨"x", some (.vstr "abc"), none⟩ (.vstr "abc") (.int 1) none rfl rfl rfl
      (by decide) (by intro h; cases h)
  · exact incr_decr_spec.2.2.2 ⟨none⟩ [⟨"f", some (.vstr "1.5"), none⟩] "f" 5
      ⟨"f", some (.vstr "1.5"), none⟩ (.vstr "1.5") 1 none rfl rfl rfl
      (by decide) (by intro h; cases h)

theorem find?_relabel (rows : Rows) (oldKey newKey : String) (r : Row)
    (hne : oldKey ≠ newKey)
    (hfind : rows.find? (fun x => x.key == oldKey) = some r) :
    ((rows.filter (fun x => x.key != newKey)).map
        (fun x => if x.key == oldKey then { x with key := newKey } else x)).find?
      (fun x => x.key == newKey) = some { r with key := newKey } := by
  induction rows with
  | nil => cases hfind
  | cons a t ih =>
    by_cases ha : a.key = oldKey
    · have hr : a = r := by
        have := List.find?_cons_of_pos t (p := fun x => x.key == oldKey)
          (a := a) (by simpa [beq_iff_eq] using ha)
        rw [this] at hfind
        exact Option.some.inj hfind
      subst hr
      rw [List.filter_cons, if_pos (by simp [bne_iff_ne, ha, hne])]
      rw [List.map_cons, if_pos (by simpa [beq_iff_eq] using ha)]
      exact List.find?_cons_of_pos _ (by simp)
    · have hfind' : t.find? (fun x => x.key == oldKey) = some r := by
        rw [List.find?_cons_of_neg t (by simpa [beq_iff_eq] using ha)] at hfind
        exact hfind
      by_cases hb : a.key = newKey
      · rw [List.filter_cons, if_neg (by simp [bne_iff_ne, hb])]
        exact ih hfind'
      · rw [List.filter_cons, if_pos (by simp [bne_iff_ne, hb])]
        rw [List.map_cons, if_neg (by simpa [beq_iff_eq] using ha)]
        rw [List.find?_cons_of_neg _ (by simpa [beq_iff_eq] using hb)]
        exact ih hfind'

/-- C7 counterexample: `rename("a", "a")` on a store containing `"a"` first
deletes the `newKey` row — which IS the `oldKey` row — so the subsequent
re-labelling update matches nothing: the call returns `true` yet the item is
gone, refuting the claim (which promises `get(newKey)` then returns the value
previously stored at `oldKey`) at the input `oldKey = newKey = "a"`. -/
theorem rename_same_key_counterexample :
    rename [⟨"a", some (.vnum (.int 1)), none⟩] "a" "a" 7 = (true, []) ∧
    (get [⟨"a", some (.vnum (.int 1)), none⟩] "a" 7).1 = some (.vnum (.int 1)) ∧
    (get (rename [⟨"a", some (.vnum (.int 1)), none⟩] "a" "a" 7).2 "a" 7).1 = none :=
  ⟨rfl, rfl, rfl⟩

/-- C7 amended: for DISTINCT keys `oldKey ≠ newKey`, `rename` behaves as
claimed — an absent or expired `oldKey` yields `false` with the `newKey` row
untouched; a present valid `oldKey` yields `true`, leaves `oldKey` absent and
makes `get(newKey)` return what `get(oldKey)` returned before.  (For
`oldKey = newKey` the delete-then-update sequence destroys the row, see the
counterexample.) -/
theorem rename_spec_amended (rows : Rows) (oldKey newKey : String) (now : Int)
    (hne : oldKey ≠ newKey) :
    ((has rows oldKey now).1 = false →
      rename rows oldKey newKey now = (false, (has rows oldKey now).2) ∧
      (has rows oldKey now).2.find? (fun x => x.key == newKey) =
        rows.find? (fun x => x.key == newKey)) ∧
    (∀ r : Row, rows.find? (fun x => x.key == oldKey) = some r →
      expiredAt r.expires now = false →
      (rename rows oldKey newKey now).1 = true ∧
      (rename rows oldKey newKey now).2.find? (fun x => x.key == oldKey) = none ∧
      (get (rename rows oldKey newKey now).2 newKey now).1 =
        (get rows oldKey now).1) := by
  constructor
  · intro hfalse
    have hpair : has rows oldKey now = (false, (has rows oldKey now).2) := by
      rw [← hfalse]
    constructor
    · unfold rename
      rw [hpair]
      simp
    · unfold has at hfalse ⊢
      cases hf : rows.find? (fun r => r.key == oldKey) with
      | none => rfl
      | some r =>
        rw [hf] at hfalse
        by_cases hex : expiredAt r.expires now
        · simp only [hex, if_true]
          unfold BunKV.delete
          exact find?_filter_of_imp rows _ _ (fun x hx => by
            simp only [beq_iff_eq] at hx
            simp [bne_iff_ne, hx, Ne.symm hne])
        · simp [hex] at hfalse
  · intro r hfind hvalid
    have htrue : has rows oldKey now = (true, rows) := by
      unfold has
      rw [hfind]
      simp [hvalid]
    have hres : rename rows oldKey newKey now =
        (true, (rows.filter (fun x => x.key != newKey)).map
          (fun x => if x.key == oldKey then { x with key := newKey } else x)) := by
      unfold rename
      rw [htrue]
      rfl
    refine ⟨by rw [hres], ?_, ?_⟩
    · rw [hres]
      simp only
      rw [List.find?_eq_none]
      intro x hx
      obtain ⟨y, hy, hxy⟩ := List.mem_map.mp hx
      by_cases hyk : y.key = oldKey
      · rw [if_pos (by simpa [beq_iff_eq] using hyk)] at hxy
        subst hxy
        simpa [beq_iff_eq] using Ne.symm hne
      · rw [if_neg (by simpa [beq_iff_eq] using hyk)] at hxy
        subst hxy
        simpa [beq_iff_eq] using hyk
    · rw [hres]
      simp only
      unfold get
      rw [find?_relabel rows oldKey newKey r hne hfind, hfind]
      simp [hvalid]

/-- Closed instance of `rename_spec_amended` with its hypotheses discharged
at a concrete input: renaming a present valid `"a"` to `"b"`. -/
theorem rename_spec_amended_witness :
    (rename [⟨"a", some (.vstr "v"), none⟩] "a" "b" 7).1 = true ∧
    (rename [⟨"a", some (.vstr "v"), none⟩] "a" "b" 7).2.find?
      (fun x => x.key == "a") = none ∧
    (get (rename [⟨"a", some (.vstr "v"), none⟩] "a" "b" 7).2 "b" 7).1 =
      (get [⟨"a", some (.vstr "v"), none⟩] "a" 7).1 :=
  (rename_spec_amended [⟨"a", some (.vstr "v"), none⟩] "a" "b" 7
    (by decide)).2 ⟨"a", some (.vstr "v"), none⟩ rfl rfl

/-- C8 counterexample: `lPop` with count `0` on an ABSENT key returns
`undefined` — the absence early-return comes before the count validation —
refuting the claim that `lPop(k, c)` raises the invalid-count error for every
key `k` and every `c <= 0`. -/
theorem pop_absent_invalid_count_counterexample :
    lPop ⟨none⟩ [] "a" (some 0) 0 = (.ok none, []) ∧
    rPop ⟨none⟩ [] "a" (some 0) 0 = (.ok none, []) :=
  ⟨rfl, rfl⟩

/-- C8 amended: the error contract holds for keys whose `get` yields a
value: any pop with `count <= 0` on such a key raises invalid-count (even
when the value is not an array — the count check fires first); on a stored
value that is neither an array nor `null`, `lPush` with at least one pushed
value, `rPush` (with any number of values — `push` is invoked regardless),
and the pops with no count or a positive count raise not-an-array; in every
error case the transaction rolls back and the store is unchanged.  (On an
absent key the pops return `undefined` without error, and a stored `null` is
treated by the pushes as a fresh empty array.) -/
theorem list_error_spec_amended :
    (∀ (cfg : Config) (rows : Rows) (k : String) (c now : Int) (v : Value),
      (get rows k now).1 = some v → c ≤ 0 →
      lPop cfg rows k (some c) now = (.error .invalidCount, rows) ∧
      rPop cfg rows k (some c) now = (.error .invalidCount, rows)) ∧
    (∀ (cfg : Config) (rows : Rows) (k : String) (now : Int) (v : Value),
      (get rows k now).1 = some v → (∀ xs, v ≠ .varr xs) →
      ((v ≠ .vnull → ∀ vs, vs ≠ [] → lPush cfg rows k vs now = (.error .noArray, rows)) ∧
       (v ≠ .vnull → ∀ vs, rPush cfg rows k vs now = (.error .noArray, rows)) ∧
       lPop cfg rows k none now = (.error .noArray, rows) ∧
       rPop cfg rows k none now = (.error .noArray, rows) ∧
       (∀ c : Int, 0 < c → (∀ xs : List Value, v ≠ .varr xs) →
         lPop cfg rows k (some c) now = (.error .noArray, rows) ∧
         rPop cfg rows k (some c) now = (.error .noArray, rows)))) := by
  constructor
  · intro cfg rows k c now v hget hc
    have hpair : get rows k now = (some v, (get rows k now).2) := by rw [← hget]
    have hc' : ¬ (c > 0) := by omega
    constructor
    · unfold lPop
      rw [hpair]
      cases v <;> simp [hc']
    · unfold rPop
      rw [hpair]
      cases v <;> simp [hc']
  · intro cfg rows k now v hget hvarr
    have hpair : get rows k now = (some v, (get rows k now).2) := by rw [← hget]
    refine ⟨?_, ?_, ?_, ?_, ?_⟩
    · intro hvnull vs hvs
      have hnv : nullish (some v) (.varr []) = v := by
        unfold nullish
        cases v <;> first | rfl | exact absurd rfl hvnull
      have hvs' : vs.isEmpty = false := by cases vs with
        | nil => exact absurd rfl hvs
        | cons a t => rfl
      unfold lPush
      rw [hpair]
      simp only [hnv]
      cases v with
      | varr xs => exact absurd rfl (hvarr xs)
      | vnull => exact absurd rfl hvnull
      | vundef => simp [hvs']
      | vbool b => simp [hvs']
      | vnum n => simp [hvs']
      | vstr s => simp [hvs']
      | vmap xs => simp [hvs']
      | vobj xs => simp [hvs']
    · intro hvnull vs
      unfold rPush
      rw [hpair]
      cases v with
      | varr xs => exact absurd rfl (hvarr xs)
      | vnull => exact absurd rfl hvnull
      | vundef => rfl
      | vbool b => rfl
      | vnum n => rfl
      | vstr s => rfl
      | vmap xs => rfl
      | vobj xs => rfl
    · unfold lPop
      rw [hpair]
      cases v with
      | varr xs => exact absurd rfl (hvarr xs)
      | vnull => rfl
      | vundef => rfl
      | vbool b => rfl
      | vnum n => rfl
      | vstr s => rfl
      | vmap xs => rfl
      | vobj xs => rfl
    · unfold rPop
      rw [hpair]
      cases v with
      | varr xs => exact absurd rfl (hvarr xs)
      | vnull => rfl
      | vundef => rfl
      | vbool b => rfl
      | vnum n => rfl
      | vstr s => rfl
      | vmap xs => rfl
      | vobj xs => rfl
    · intro c hc _
      constructor
      · unfold lPop
        rw [hpair]
        cases v <;> first
          | exact absurd rfl (hvarr _)
          | simp [hc]
      · unfold rPop
        rw [hpair]
        cases v <;> first
          | exact absurd rfl (hvarr _)
          | simp [hc]

/-- Closed instance of `list_error_spec_amended` with its hypotheses
discharged at a store holding the non-array string value `"s"` at `"k"`. -/
theorem list_error_spec_amended_witness :
    lPop ⟨none⟩ [⟨"k", some (.vstr "s"), none⟩] "k" (some 0) 5 =
      (.error .invalidCount, [⟨"k", some (.vstr "s"), none⟩]) ∧
    rPush ⟨none⟩ [⟨"k", some (.vstr "s"), none⟩] "k" [] 5 =
      (.error .noArray, [⟨"k", some (.vstr "s"), none⟩]) ∧
    lPop ⟨none⟩ [⟨"k", some (.vstr "s"), none⟩] "k" none 5 =
      (.error .noArray, [⟨"k", some (.vstr "s"), none⟩]) := by
  refine ⟨(list_error_spec_amended.1 ⟨none⟩ [⟨"k", some (.vstr "s"), none⟩] "k" 0 5
    (.vstr "s") rfl (by decide)).1, ?_, ?_⟩
  · exact (list_error_spec_amended.2 ⟨none⟩ [⟨"k", some (.vstr "s"), none⟩] "k" 5
      (.vstr "s") rfl (fun xs h => by cases h)).2.1 (by intro h; cases h) []
  · exact (list_error_spec_amended.2 ⟨none⟩ [⟨"k", some (.vstr "s"), none⟩] "k" 5
      (.vstr "s") rfl (fun xs h => by cases h)).2.2.1

theorem find?_set_self (cfg : Config) (rows : Rows) (k : String) (v : Value)
    (ttl : Option Int) (now : Int) :
    (set cfg rows k v ttl now).find? (fun r => r.key == k) =
      some ⟨k, some v, computeExpires cfg ttl now⟩ :=
  find?_setItem_self rows k v _

/-- C10 counterexample: `rPop` with a positive count on an item holding an
EMPTY array returns before the write-back, so the item keeps its expiry
`some 100` instead of having it replaced by the (absent) default TTL —
refuting the claim that every listed mutation rewrites the value and
discards the existing expiration. -/
theorem pop_empty_preserves_ttl_counterexample :
    rPop ⟨none⟩ [⟨"k", some (.varr []), some 100⟩] "k" (some 1) 50 =
      (.ok none, [⟨"k", some (.varr []), some 100⟩]) ∧
    lPop ⟨none⟩ [⟨"k", some (.varr []), some 100⟩] "k" (some 1) 50 =
      (.ok none, [⟨"k", some (.varr []), some 100⟩]) ∧
    computeExpires ⟨none⟩ none 50 = none ∧
    (⟨"k", some (.varr []), some 100⟩ : Row).expires = some 100 :=
  ⟨rfl, rfl, rfl, rfl⟩

/-- C10 amended: on an item with a valid (non-expired) array or map value,
`lPush`, `rPush`, the count-less pops, the positive-count pops that remove at
least one element, and `hDelete` all rewrite the whole value through
`set(key, value)` with no TTL argument, so the stored expiry becomes
`computeExpires cfg none now` — the default-TTL-derived stamp (or none) —
discarding the previous expiration; the one exception is a positive-count
pop on an EMPTY array, which returns early without writing and preserves the
item, expiry included. -/
theorem collection_write_resets_ttl_amended :
    (∀ (cfg : Config) (rows : Rows) (k : String) (now : Int) (r : Row)
      (xs : List Value),
      rows.find? (fun x => x.key == k) = some r →
      r.value = some (.varr xs) →
      expiredAt r.expires now = false →
      ((∀ vs, ((lPush cfg rows k vs now).2).find? (fun x => x.key == k) =
          some ⟨k, some (.varr (vs.reverse ++ xs)), computeExpires cfg none now⟩) ∧
       (∀ vs, ((rPush cfg rows k vs now).2).find? (fun x => x.key == k) =
          some ⟨k, some (.varr (xs ++ vs)), computeExpires cfg none now⟩) ∧
       ((lPop cfg rows k none now).2.find? (fun x => x.key == k) =
          some ⟨k, some (.varr xs.tail), computeExpires cfg none now⟩) ∧
       ((rPop cfg rows k none now).2.find? (fun x => x.key == k) =
          some ⟨k, some (.varr xs.dropLast), computeExpires cfg none now⟩) ∧
       (∀ c : Int, 0 < c → xs ≠ [] →
         (lPop cfg rows k (some c) now).2.find? (fun x => x.key == k) =
            some ⟨k, some (.varr (xs.drop c.toNat)), computeExpires cfg none now⟩ ∧
         (rPop cfg rows k (some c) now).2.find? (fun x => x.key == k) =
            some ⟨k, some (.varr (xs.take (xs.length - min c.toNat xs.length))),
              computeExpires cfg none now⟩) ∧
       (∀ c : Int, 0 < c → xs = [] →
         lPop cfg rows k (some c) now = (.ok none, rows) ∧
         rPop cfg rows k (some c) now = (.ok none, rows)))) ∧
    (∀ (cfg : Config) (rows : Rows) (k field : String) (now : Int) (r : Row)
      (entries : List (String × Value)),
      rows.find? (fun x => x.key == k) = some r →
      r.value = some (.vmap entries) →
      expiredAt r.expires now = false →
      (hDelete cfg rows k field now).2.find? (fun x => x.key == k) =
        some ⟨k, some (.vmap (entries.filter (fun e => e.1 != field))),
          computeExpires cfg none now⟩) := by
  constructor
  · intro cfg rows k now r xs hfind hval hvalid
    have hget : get rows k now = (some (.varr xs), rows) := by
      unfold get
      rw [hfind]
      simp [hvalid, hval, jsReturn, deserialize]
    refine ⟨?_, ?_, ?_, ?_, ?_, ?_⟩
    · intro vs
      unfold lPush
      rw [hget]
      simp only [nullish]
      exact find?_set_self cfg rows k _ none now
    · intro vs
      unfold rPush
      rw [hget]
      simp only [nullish]
      exact find?_set_self cfg rows k _ none now
    · unfold lPop
      rw [hget]
      simp only
      exact find?_set_self cfg rows k _ none now
    · unfold rPop
      rw [hget]
      simp only
      exact find?_set_self cfg rows k _ none now
    · intro c hc hxs
      have hcn : 1 ≤ c.toNat := by omega
      have hlen : 1 ≤ xs.length := List.length_pos.mpr hxs
      constructor
      · have htake : (xs.take c.toNat).isEmpty = false := by
          cases ht : xs.take c.toNat with
          | nil =>
            rcases List.take_eq_nil_iff.mp ht with h | h
            · omega
            · exact absurd h hxs
          | cons a t => rfl
        unfold lPop
        rw [hget]
        simp only [if_pos hc, htake, Bool.false_eq_true, if_false]
        exact find?_set_self cfg rows k _ none now
      · have hdrop : (xs.drop (xs.length - min c.toNat xs.length)).isEmpty = false := by
          cases hd : xs.drop (xs.length - min c.toNat xs.length) with
          | nil =>
            have := List.length_drop (xs.length - min c.toNat xs.length) xs
            rw [hd] at this
            simp at this
            omega
          | cons a t => rfl
        unfold rPop
        rw [hget]
        simp only [if_pos hc, hdrop, Bool.false_eq_true, if_false]
        exact find?_set_self cfg rows k _ none now
    · intro c hc hxs
      subst hxs
      constructor
      · unfold lPop
        rw [hget]
        simp [hc]
      · unfold rPop
        rw [hget]
        simp [hc]
  · intro cfg rows k field now r entries hfind hval hvalid
    have hget : get rows k now = (some (.vmap entries), rows) := by
      unfold get
      rw [hfind]
      simp [hvalid, hval, jsReturn, deserialize]
    unfold hDelete
    rw [hget]
    simp only
    exact find?_set_self cfg rows k _ none now

/-- Closed instance of `collection_write_resets_ttl_amended` with its
hypotheses discharged at an item holding `["a"]` with expiry 100: `lPush`
rewrites it and the expiry becomes the default-derived `none`. -/
theorem collection_write_resets_ttl_amended_witness :
    ((lPush ⟨none⟩ [⟨"k", some (.varr [.vstr "a"]), some 100⟩] "k" [.vstr "b"] 50).2).find?
      (fun x => x.key == "k") =
      some ⟨"k", some (.varr [.vstr "b", .vstr "a"]), computeExpires ⟨none⟩ none 50⟩ :=
  (collection_write_resets_ttl_amended.1 ⟨none⟩
    [⟨"k", some (.varr [.vstr "a"]), some 100⟩] "k" 50
    ⟨"k", some (.varr [.vstr "a"]), some 100⟩ [.vstr "a"] rfl rfl (by decide)).1
    [.vstr "b"]

theorem cascade_WF (db : TagDB) (ks : List String) (h : db.WF) :
    (cascadeDeleteItems db ks).WF := by
  intro tr htr
  unfold cascadeDeleteItems at htr
  simp only at htr
  have h1 := (List.mem_filter.mp htr).1
  have h2 := (List.mem_filter.mp htr).2
  have h2' : ((db.items.filter (fun x => ks.contains x.key)).map
      (fun x => x.key)).contains tr.itemKey = false := by
    cases hx : ((db.items.filter (fun x => ks.contains x.key)).map
        (fun x => x.key)).contains tr.itemKey
    · rfl
    · rw [hx] at h2
      cases h2
  obtain ⟨r, hr, hrk⟩ := h tr h1
  refine ⟨r, ?_, hrk⟩
  unfold cascadeDeleteItems
  simp only
  apply List.mem_filter.mpr
  refine ⟨hr, ?_⟩
  cases hb : ks.contains r.key with
  | false => rfl
  | true =>
    exfalso
    have hmem : tr.itemKey ∈ (db.items.filter (fun x => ks.contains x.key)).map
        (fun x => x.key) := by
      rw [← hrk]
      exact List.mem_map_of_mem _ (List.mem_filter.mpr ⟨hr, hb⟩)
    have hc : ((db.items.filter (fun x => ks.contains x.key)).map
        (fun x => x.key)).contains tr.itemKey = true := List.elem_iff.mpr hmem
    rw [hc] at h2'
    exact absurd h2' (by decide)

/-- C9: in every reachable database state every tag row refers to an
existing item (referential integrity under the cascading schema); under that
integrity, `deleteTaggedItems(T)` leaves no key tagged `T` and removes every
item that carried `T`, while a tag row of an item carrying only other tags
survives; and deleting an existing item directly removes exactly the tag
rows whose `item_key` matches it. -/
theorem tag_integrity_spec :
    (∀ db : TagDB, Reachable db → db.WF) ∧
    (∀ (db : TagDB) (t : String), db.WF →
      (getTaggedKeys (deleteTaggedItems db t) t = [] ∧
       (∀ k, k ∈ getTaggedKeys db t → ∀ r ∈ (deleteTaggedItems db t).items, r.key ≠ k) ∧
       (∀ tr ∈ db.tags,
         (∀ tr2 ∈ db.tags, tr2.itemKey = tr.itemKey → tr2.tag ≠ t) →
         tr ∈ (deleteTaggedItems db t).tags))) ∧
    (∀ (db : TagDB) (k : String), (∃ r ∈ db.items, r.key = k) →
      ∀ tr : TagRow, tr ∈ (tagDbDeleteItem db k).tags ↔
        (tr ∈ db.tags ∧ tr.itemKey ≠ k)) := by
  have hcontains : ∀ (db : TagDB) (ks : List String) (x : String),
      ((db.items.filter (fun r => ks.contains r.key)).map
        (fun r => r.key)).contains x = true ↔
      ∃ r ∈ db.items, r.key = x ∧ x ∈ ks := by
    intro db ks x
    rw [List.elem_iff]
    constructor
    · intro hx
      obtain ⟨r, hr, hrx⟩ := List.mem_map.mp hx
      have h1 := (List.mem_filter.mp hr).1
      have h2 := (List.mem_filter.mp hr).2
      exact ⟨r, h1, hrx, hrx ▸ List.elem_iff.mp h2⟩
    · rintro ⟨r, hr, rfl, hxk⟩
      exact List.mem_map_of_mem _ (List.mem_filter.mpr ⟨hr, List.elem_iff.mpr hxk⟩)
  refine ⟨?_, ?_, ?_⟩
  · intro db hreach
    induction hreach with
    | init => intro tr htr; cases htr
    | setItem db k b e _ ih =>
      intro tr htr
      unfold tagDbSetItem at htr
      simp only at htr
      obtain ⟨r, hr, hrk⟩ := cascade_WF db [k] ih tr htr
      exact ⟨r, List.mem_append_left _ hr, hrk⟩
    | deleteItem db k _ ih => exact cascade_WF db [k] ih
    | clear db _ ih => exact cascade_WF db _ ih
    | addTag db t k bnew db' _ heq ih =>
      unfold addTag at heq
      by_cases hany : db.items.any (fun r => r.key == k)
      · rw [if_pos hany] at heq
        by_cases hdup : db.tags.any (fun tr => tr.tag == t && tr.itemKey == k)
        · rw [if_pos hdup] at heq
          cases heq
          exact ih
        · rw [if_neg hdup] at heq
          cases heq
          intro tr htr
          rcases List.mem_append.mp htr with hold | hnew
          · exact ih tr hold
          · obtain ⟨r, hr, hrk⟩ := List.any_eq_true.mp hany
            rw [List.mem_singleton.mp hnew]
            exact ⟨r, hr, by simpa [beq_iff_eq] using hrk⟩
      · rw [if_neg hany] at heq
        cases heq
    | deleteTag db t k _ ih =>
      intro tr htr
      exact ih tr (List.mem_filter.mp htr).1
    | deleteAllTags db k _ ih =>
      intro tr htr
      exact ih tr (List.mem_filter.mp htr).1
    | deleteTaggedItems db t _ ih => exact cascade_WF db _ ih
    | rename db oldKey newKey _ ih =>
      intro tr htr
      unfold tagDbRename at htr
      simp only at htr
      obtain ⟨tr0, htr0, htr0eq⟩ := List.mem_map.mp htr
      obtain ⟨r, hr, hrk⟩ := cascade_WF db [newKey] ih tr0 htr0
      unfold tagDbRename
      simp only
      by_cases hok : tr0.itemKey = oldKey
      · rw [if_pos (by simpa [beq_iff_eq] using hok)] at htr0eq
        subst htr0eq
        refine ⟨{ r with key := newKey }, ?_, rfl⟩
        have : (fun x : Row => if x.key == oldKey then { x with key := newKey } else x) r =
            { r with key := newKey } := by
          show (if r.key == oldKey then { r with key := newKey } else r) =
            { r with key := newKey }
          rw [if_pos (by simp [beq_iff_eq, hrk, hok])]
        exact this ▸ List.mem_map_of_mem _ hr
      · rw [if_neg (by simpa [beq_iff_eq] using hok)] at htr0eq
        subst htr0eq
        refine ⟨r, ?_, hrk⟩
        have : (fun x : Row => if x.key == oldKey then { x with key := newKey } else x) r =
            r := by
          show (if r.key == oldKey then { r with key := newKey } else r) = r
          rw [if_neg (by simp [beq_iff_eq, hrk, hok])]
        exact this ▸ List.mem_map_of_mem _ hr
  · intro db t hwf
    refine ⟨?_, ?_, ?_⟩
    · unfold getTaggedKeys deleteTaggedItems cascadeDeleteItems
      simp only
      rw [List.map_eq_nil_iff, List.filter_eq_nil_iff]
      intro tr htr
      have h1 := (List.mem_filter.mp htr).1
      have h2 := (List.mem_filter.mp htr).2
      intro htag
      obtain ⟨r, hr, hrk⟩ := hwf tr h1
      have hmem : tr.itemKey ∈ getTaggedKeys db t := by
        unfold getTaggedKeys
        exact List.mem_map_of_mem _ (List.mem_filter.mpr ⟨h1, htag⟩)
      have := (hcontains db (getTaggedKeys db t) tr.itemKey).mpr ⟨r, hr, hrk, hmem⟩
      rw [this] at h2
      exact absurd h2 (by decide)
    · intro k hk r hr
      unfold deleteTaggedItems cascadeDeleteItems at hr
      simp only at hr
      have h2 := (List.mem_filter.mp hr).2
      intro hrk
      rw [hrk] at h2
      have : (getTaggedKeys db t).contains k = true := List.elem_iff.mpr hk
      rw [this] at h2
      exact absurd h2 (by decide)
    · intro tr htr hno
      unfold deleteTaggedItems cascadeDeleteItems
      simp only
      apply List.mem_filter.mpr
      refine ⟨htr, ?_⟩
      cases hx : ((db.items.filter
          (fun r => (getTaggedKeys db t).contains r.key)).map
          (fun r => r.key)).contains tr.itemKey
      · rfl
      · exfalso
        obtain ⟨r, _, hrk, hks⟩ := (hcontains db (getTaggedKeys db t) tr.itemKey).mp hx
        unfold getTaggedKeys at hks
        obtain ⟨tr2, htr2, htr2k⟩ := List.mem_map.mp hks
        have h1 := (List.mem_filter.mp htr2).1
        have h2 := (List.mem_filter.mp htr2).2
        exact hno tr2 h1 htr2k (by simpa [beq_iff_eq] using h2)
  · intro db k hk tr
    unfold tagDbDeleteItem cascadeDeleteItems
    simp only
    rw [List.mem_filter]
    constructor
    · rintro ⟨h1, h2⟩
      refine ⟨h1, ?_⟩
      intro hik
      obtain ⟨r, hr, hrk⟩ := hk
      have : ((db.items.filter (fun r => [k].contains r.key)).map
          (fun r => r.key)).contains tr.itemKey = true :=
        (hcontains db [k] tr.itemKey).mpr ⟨r, hr, by rw [hrk, hik], by simp [hik]⟩
      rw [this] at h2
      exact absurd h2 (by decide)
    · rintro ⟨h1, h2⟩
      refine ⟨h1, ?_⟩
      cases hx : ((db.items.filter (fun r => [k].contains r.key)).map
          (fun r => r.key)).contains tr.itemKey
      · rfl
      · exfalso
        obtain ⟨r, _, hrk, hks⟩ := (hcontains db [k] tr.itemKey).mp hx
        exact h2 (List.mem_singleton.mp hks)

/-- Closed instance of `tag_integrity_spec`: integrity of a concretely
reached state, emptiness of a tag after `deleteTaggedItems`, and survival of
the other item's tag row after a direct delete. -/
theorem tag_integrity_spec_witness :
    TagDB.WF ⟨[⟨"k1", some .vnull, none⟩], [⟨"T", "k1"⟩]⟩ ∧
    getTaggedKeys (deleteTaggedItems
      ⟨[⟨"k1", some .vnull, none⟩, ⟨"k2", some .vnull, none⟩],
       [⟨"T", "k1"⟩, ⟨"U", "k2"⟩]⟩ "T") "T" = [] ∧
    (⟨"U", "k2"⟩ : TagRow) ∈ (tagDbDeleteItem
      ⟨[⟨"k1", some .vnull, none⟩, ⟨"k2", some .vnull, none⟩],
       [⟨"T", "k1"⟩, ⟨"U", "k2"⟩]⟩ "k1").tags := by
  refine ⟨?_, ?_, ?_⟩
  · have h1 : Reachable (tagDbSetItem ⟨[], []⟩ "k1" .vnull none) :=
      Reachable.setItem _ _ _ _ Reachable.init
    have h2 : addTag (tagDbSetItem ⟨[], []⟩ "k1" .vnull none) "T" "k1" =
        .ok (true, ⟨[⟨"k1", some .vnull, none⟩], [⟨"T", "k1"⟩]⟩) := rfl
    exact tag_integrity_spec.1 _ (Reachable.addTag _ _ _ _ _ h1 h2)
  · exact (tag_integrity_spec.2.1
      ⟨[⟨"k1", some .vnull, none⟩, ⟨"k2", some .vnull, none⟩],
       [⟨"T", "k1"⟩, ⟨"U", "k2"⟩]⟩ "T"
      (by intro tr htr
          rcases List.mem_cons.mp htr with rfl | htr2
          · exact ⟨⟨"k1", some .vnull, none⟩, by simp, rfl⟩
          · rcases List.mem_cons.mp htr2 with rfl | htr3
            · exact ⟨⟨"k2", some .vnull, none⟩, by simp, rfl⟩
            · cases htr3)).1
  · exact ((tag_integrity_spec.2.2
      ⟨[⟨"k1", some .vnull, none⟩, ⟨"k2", some .vnull, none⟩],
       [⟨"T", "k1"⟩, ⟨"U", "k2"⟩]⟩ "k1"
      ⟨⟨"k1", some .vnull, none⟩, by simp, rfl⟩ ⟨"U", "k2"⟩).mpr
      ⟨by simp, by simp⟩)

theorem char_eq_of_toNat_eq {a b : Char} (h : a.toNat = b.toNat) : a = b :=
  Char.ext (UInt32.ext h)

theorem lex_append_left (p a b : List Char) : lexLt (p ++ a) (p ++ b) = lexLt a b := by
  induction p with
  | nil => rfl
  | cons x p ih => simp [lexLt, ih]

theorem lex_sandwich (p : List Char) :
    ∀ (ks : List Char) (c1 c2 : Char),
    (p ++ [c1] = ks ∨ lexLt (p ++ [c1]) ks = true) →
    lexLt ks (p ++ [c2]) = true →
    ∃ c rest, ks = p ++ c :: rest ∧ c1.toNat ≤ c.toNat ∧ c.toNat < c2.toNat := by
  induction p with
  | nil =>
    intro ks c1 c2 h1 h2
    cases ks with
    | nil =>
      rcases h1 with h | h
      · exact absurd h (by simp)
      · simp [lexLt] at h
    | cons c rest =>
      refine ⟨c, rest, rfl, ?_, ?_⟩
      · rcases h1 with h | h
        · have hc : c1 = c ∧ ([] : List Char) = rest := by
            simpa using h
          rw [hc.1]
        · simp only [List.nil_append, lexLt, Bool.or_eq_true, Bool.and_eq_true,
            beq_iff_eq, decide_eq_true_eq] at h
          rcases h with h | ⟨h, _⟩
          · omega
          · rw [h]
      · simp only [List.nil_append, lexLt, Bool.or_eq_true, Bool.and_eq_true,
          beq_iff_eq, decide_eq_true_eq] at h2
        rcases h2 with h | ⟨_, h⟩
        · exact h
        · cases rest <;> simp [lexLt] at h
  | cons a p ih =>
    intro ks c1 c2 h1 h2
    cases ks with
    | nil =>
      rcases h1 with h | h
      · exact absurd h (by simp)
      · simp [lexLt] at h
    | cons b ks2 =>
      simp only [List.cons_append, lexLt, Bool.or_eq_true, Bool.and_eq_true,
        beq_iff_eq, decide_eq_true_eq] at h2
      have hab : a = b ∧ (p ++ [c1] = ks2 ∨ lexLt (p ++ [c1]) ks2 = true) := by
        rcases h1 with h | h
        · simp only [List.cons_append] at h
          injection h with hh ht
          rcases h2 with h2a | ⟨h2b, _⟩
          · exact ⟨hh, Or.inl ht⟩
          · exact ⟨hh, Or.inl ht⟩
        · simp only [List.cons_append, lexLt, Bool.or_eq_true, Bool.and_eq_true,
            beq_iff_eq, decide_eq_true_eq] at h
          rcases h with hlt | ⟨heq, hrec⟩
          · rcases h2 with h2a | ⟨h2b, _⟩
            · omega
            · rw [h2b] at hlt
              omega
          · exact ⟨heq, Or.inr hrec⟩
      rcases h2 with h2a | ⟨h2b, h2c⟩
      · rw [hab.1] at h2a
        omega
      · obtain ⟨c, rest, hks, hle, hlt⟩ := ih ks2 c1 c2 hab.2 h2c
        exact ⟨c, rest, by rw [List.cons_append, hks, hab.1], hle, hlt⟩

theorem lex_lt_of_decomp (p : List Char) (c c2 : Char) (rest : List Char)
    (h : c.toNat < c2.toNat) : lexLt (p ++ c :: rest) (p ++ [c2]) = true := by
  rw [show p ++ c :: rest = p ++ (c :: rest) from rfl, lex_append_left]
  simp [lexLt, h]

theorem lex_ge_of_decomp (p : List Char) (c1 c : Char) (rest : List Char)
    (h : c1.toNat ≤ c.toNat) :
    p ++ [c1] = p ++ c :: rest ∨ lexLt (p ++ [c1]) (p ++ c :: rest) = true := by
  rcases Nat.lt_or_ge c1.toNat c.toNat with hlt | hge
  · right
    rw [lex_append_left]
    simp [lexLt, hlt]
  · have heq : c1 = c := char_eq_of_toNat_eq (Nat.le_antisymm h hge)
    subst heq
    cases rest with
    | nil => exact Or.inl rfl
    | cons d rest2 =>
      right
      rw [lex_append_left]
      simp [lexLt]

theorem startsWithMatch_iff (p k : String) :
    startsWithMatch p k = true ↔
      (k = p ∨ ∃ (c : Char) (rest : List Char),
        k.data = p.data ++ c :: rest ∧ 1 ≤ c.toNat ∧ c.toNat < 1114111) := by
  have hmin : (p ++ MIN_UTF8_CHAR).data = p.data ++ [Char.ofNat 1] := by
    rw [String.data_append]
    rfl
  have hmax : (p ++ MAX_UTF8_CHAR).data = p.data ++ [Char.ofNat 1114111] := by
    rw [String.data_append]
    rfl
  have hc1 : (Char.ofNat 1).toNat = 1 := by decide
  have hc2 : (Char.ofNat 1114111).toNat = 1114111 := by decide
  unfold startsWithMatch strGe strLt
  simp only [Bool.or_eq_true, Bool.and_eq_true, beq_iff_eq]
  constructor
  · rintro (h | ⟨hge, hlt⟩)
    · exact Or.inl h
    · right
      rw [hmin] at hge
      rw [hmax] at hlt
      have hge' : p.data ++ [Char.ofNat 1] = k.data ∨
          lexLt (p.data ++ [Char.ofNat 1]) k.data = true := by
        rcases hge with h | h
        · exact Or.inl (by rw [h, hmin])
        · exact Or.inr h
      obtain ⟨c, rest, hks, hle, hltc⟩ :=
        lex_sandwich p.data k.data (Char.ofNat 1) (Char.ofNat 1114111) hge' hlt
      exact ⟨c, rest, hks, by omega, by omega⟩
  · rintro (h | ⟨c, rest, hks, h1, h2⟩)
    · exact Or.inl h
    · right
      constructor
      · rw [hmin]
        rcases lex_ge_of_decomp p.data (Char.ofNat 1) c rest (by omega) with h | h
        · left
          apply String.ext
          rw [hmin, hks]
          exact h.symm
        · right
          rw [hks]
          exact h
      · rw [hmax, hks]
        exact lex_lt_of_decomp p.data c (Char.ofNat 1114111) rest (by omega)

theorem getKeys_keys_eq (rows : Rows) (p : String) (now : Int) :
    (getKeysStartsWith rows p now).1.getD [] =
      ((rows.filter (fun r => startsWithMatch p r.key)).filter
        (fun r => !(expiredAt r.expires now))).map (fun r => r.key) := by
  unfold getKeysStartsWith
  simp only
  by_cases h0 : (rows.filter (fun r => startsWithMatch p r.key)).length = 0
  · rw [if_pos h0]
    rw [List.length_eq_zero.mp h0]
    rfl
  · rw [if_neg h0]
    by_cases h1 : (((rows.filter (fun r => startsWithMatch p r.key)).filter
        (fun r => !(expiredAt r.expires now))).map (fun r => r.key)).length = 0
    · rw [if_pos h1]
      rw [List.length_eq_zero.mp h1]
      rfl
    · rw [if_neg h1]
      rfl

/-- C1 counterexample: the store holds exactly one key, `"a"` followed by
the code point `U+10FFFF` (= `MAX_UTF8_CHAR`).  The string `"a"` is a literal
prefix of that key, yet the range query with `P = "a"` returns nothing: the
key equals the exclusive upper bound `P + MAX_UTF8_CHAR` itself, so
`key < lt` fails — refuting the claim that the bounds match every key with
the literal prefix `P`, including those whose next code point is the extreme
(highest) one. -/
theorem startsWith_extreme_counterexample :
    getKeysStartsWith
        [⟨String.mk ['a', Char.ofNat 1114111], some (.vstr "v"), none⟩] "a" 0 =
      (none, [⟨String.mk ['a', Char.ofNat 1114111], some (.vstr "v"), none⟩]) ∧
    List.IsPrefix "a".data (String.mk ['a', Char.ofNat 1114111]).data :=
  ⟨rfl, ⟨[Char.ofNat 1114111], rfl⟩⟩

/-- C1 amended: the prefix query returns exactly the non-expired stored keys
`k` such that either `k = P`, or `k` extends `P` by a next code point `c`
with `U+0001 <= c < U+10FFFF` — that is, all keys with literal prefix `P`
EXCEPT those whose next code point after `P` is `U+0000` (below
`MIN_UTF8_CHAR`) or `U+10FFFF` (not below `MAX_UTF8_CHAR`, the exclusive
upper bound). -/
theorem getItems_keys_eq (rows : Rows) (p : String) (now : Int) :
    ((getItemsStartsWith rows p now).1.getD []).map (fun it => it.key) =
      ((rows.filter (fun r => startsWithMatch p r.key)).filter
        (fun r => !(expiredAt r.expires now))).map (fun r => r.key) := by
  unfold getItemsStartsWith
  simp only
  by_cases h0 : (rows.filter (fun r => startsWithMatch p r.key)).length = 0
  · rw [if_pos h0]
    rw [List.length_eq_zero.mp h0]
    rfl
  · rw [if_neg h0]
    by_cases h1 : (((rows.filter (fun r => startsWithMatch p r.key)).filter
        (fun r => !(expiredAt r.expires now))).map
        (fun r => Item.mk r.key (match r.value with
          | none => none
          | some b => jsReturn (deserialize b)))).length = 0
    · rw [if_pos h1]
      have h2 : ((rows.filter (fun r => startsWithMatch p r.key)).filter
          (fun r => !(expiredAt r.expires now))) = [] := by
        have := List.length_eq_zero.mp h1
        exact List.map_eq_nil_iff.mp this
      rw [h2]
      rfl
    · rw [if_neg h1]
      simp only [Option.getD_some, List.map_map]
      rfl

theorem startsWith_range_amended (rows : Rows) (p : String) (now : Int) (k : String) :
    (k ∈ (getKeysStartsWith rows p now).1.getD [] ↔
      ∃ r ∈ rows, r.key = k ∧ expiredAt r.expires now = false ∧
        (k = p ∨ ∃ (c : Char) (rest : List Char),
          k.data = p.data ++ c :: rest ∧ 1 ≤ c.toNat ∧ c.toNat < 1114111)) ∧
    (k ∈ ((getItemsStartsWith rows p now).1.getD []).map (fun it => it.key) ↔
      ∃ r ∈ rows, r.key = k ∧ expiredAt r.expires now = false ∧
        (k = p ∨ ∃ (c : Char) (rest : List Char),
          k.data = p.data ++ c :: rest ∧ 1 ≤ c.toNat ∧ c.toNat < 1114111)) := by
  have hmain : k ∈ ((rows.filter (fun r => startsWithMatch p r.key)).filter
        (fun r => !(expiredAt r.expires now))).map (fun r => r.key) ↔
      ∃ r ∈ rows, r.key = k ∧ expiredAt r.expires now = false ∧
        (k = p ∨ ∃ (c : Char) (rest : List Char),
          k.data = p.data ++ c :: rest ∧ 1 ≤ c.toNat ∧ c.toNat < 1114111) := by
    constructor
    · intro hk
      obtain ⟨r, hr, hrk⟩ := List.mem_map.mp hk
      have h1 := (List.mem_filter.mp hr).1
      have h2 := (List.mem_filter.mp hr).2
      have h3 := (List.mem_filter.mp h1).1
      have h4 := (List.mem_filter.mp h1).2
      refine ⟨r, h3, hrk, ?_, ?_⟩
      · cases he : expiredAt r.expires now
        · rfl
        · rw [he] at h2
          exact absurd h2 (by decide)
      · rw [← hrk]
        exact (startsWithMatch_iff p r.key).mp h4
    · rintro ⟨r, hr, hrk, hexp, hmatch⟩
      apply List.mem_map.mpr
      refine ⟨r, ?_, hrk⟩
      apply List.mem_filter.mpr
      refine ⟨List.mem_filter.mpr ⟨hr, ?_⟩, by rw [hexp]; rfl⟩
      exact (startsWithMatch_iff p r.key).mpr (by rw [hrk]; exact hmatch)
  constructor
  · rw [getKeys_keys_eq]
    exact hmain
  · rw [getItems_keys_eq]
    exact hmain

end BunKV
